import Mathlib

/-!
Verification of the URL time-range codec engine of aws-console-time-keeper.

The JavaScript source is shallowly embedded:
  * JS strings are modelled as `List Char` / `String` (sequences of unicode
    scalars; the addresses handled by the engine are ASCII-dominated, where
    UTF-16 code units and scalars coincide).
  * JS numbers are modelled as integers (`Int`) plus a `nan` marker: every
    numeral produced or consumed by this engine is an integer numeral, and
    `NaN` is the only non-finite value reachable here.  Fractional or
    exponent-form numerals are outside the model and are mapped to `nan`.
  * The recursive `_parse` routine of jsurl.js can fail to terminate on some
    inputs (its element loop does not always consume input), so it is
    embedded with explicit fuel: a `none` result models non-termination,
    never an error value.
  * Stateful wrappers (`window.location.hash` read/write) are modelled by
    passing the hash/href in and returning the newly assigned text;
    `Date.now()` is an explicit `now` parameter.
-/

set_option maxHeartbeats 1000000
set_option maxRecDepth 100000

namespace TimeKeeper

/-! ## Character and list helpers (JS string primitives) -/

def isDigitCh (c : Char) : Bool := 48 ≤ c.toNat && c.toNat ≤ 57

def isHexDigitCh (c : Char) : Bool :=
  isDigitCh c || (97 ≤ c.toNat && c.toNat ≤ 102) || (65 ≤ c.toNat && c.toNat ≤ 70)

def hexVal (c : Char) : Nat :=
  if isDigitCh c then c.toNat - 48
  else if 97 ≤ c.toNat && c.toNat ≤ 102 then c.toNat - 87
  else if 65 ≤ c.toNat && c.toNat ≤ 70 then c.toNat - 55
  else 0

/-- `parseInt(s, 16)`: longest hex-digit prefix; `none` models `NaN`. -/
def parseHexPrefix (cs : List Char) : Option Nat :=
  let h := cs.takeWhile isHexDigitCh
  if h.isEmpty then none
  else some (h.foldl (fun a c => a * 16 + hexVal c) 0)

/-- JS `String.fromCharCode`: argument is converted with ToUint16; `NaN`
becomes code 0.  Codes that are not unicode scalars (surrogates) fall back to
`'\x00'` in the model; they are not produced by any input considered here. -/
def charOfCode (n : Nat) : Char := Char.ofNat (n % 65536)

def fromCharCode (o : Option Nat) : Char :=
  match o with
  | none => charOfCode 0
  | some n => charOfCode n

/-- Split `s` at the first occurrence of `pat`: returns the part before the
occurrence and the part after it (the occurrence removed). -/
def breakOnSub (pat : List Char) (s : List Char) : Option (List Char × List Char) :=
  match s with
  | [] => if pat.isEmpty then some ([], []) else none
  | c :: t =>
    if pat.isPrefixOf s then some ([], s.drop pat.length)
    else
      match breakOnSub pat t with
      | some (a, b) => some (c :: a, b)
      | none => none

/-- JS `String.prototype.includes`. -/
def containsSub (s pat : String) : Bool := (breakOnSub pat.data s.data).isSome

def toLowerA (c : Char) : Char :=
  if 65 ≤ c.toNat && c.toNat ≤ 90 then charOfCode (c.toNat + 32) else c

/-- Case-insensitive variant of `breakOnSub` (ASCII case folding, as the `/i`
regex flag behaves on the ASCII markers used by the source). -/
def breakOnSubCI (pat : List Char) (s : List Char) : Option (List Char × List Char) :=
  match s with
  | [] => if pat.isEmpty then some ([], []) else none
  | c :: t =>
    if (pat.map toLowerA).isPrefixOf (s.map toLowerA) then some ([], s.drop pat.length)
    else
      match breakOnSubCI pat t with
      | some (a, b) => some (c :: a, b)
      | none => none

/-- Model of the regex `/name([^&;]*)/`: locate the literal `name`, the value
is the maximal following run without `&` or `;`.  Returns
(text before the name, value, text after the value). -/
def matchParam (hash : String) (nm : String) : Option (String × String × String) :=
  match breakOnSub nm.data hash.data with
  | none => none
  | some (pre, rest) =>
    let v := rest.takeWhile (fun c => !(c == '&' || c == ';'))
    some (⟨pre⟩, ⟨v⟩, ⟨rest.drop v.length⟩)

/-- Case-insensitive `matchParam` (for `/queryDetail\$3D([^&;]*)/i`). -/
def matchParamCI (hash : String) (nm : String) : Option (String × String × String) :=
  match breakOnSubCI nm.data hash.data with
  | none => none
  | some (pre, rest) =>
    let v := rest.takeWhile (fun c => !(c == '&' || c == ';'))
    some (⟨pre⟩, ⟨v⟩, ⟨rest.drop v.length⟩)

/-! ## Decimal numerals (JS number-to-string and string-to-number) -/

def digitCh (n : Nat) : Char := charOfCode (48 + n % 10)

def natDecChars : Nat → Nat → List Char
  | 0, _ => []
  | f + 1, n => if n < 10 then [digitCh n] else natDecChars f (n / 10) ++ [digitCh (n % 10)]

/-- Decimal rendering of a natural number. -/
def natToChars (n : Nat) : List Char := natDecChars (n + 1) n

/-- JS number-to-string for the integers in the modelled range.  (For
magnitudes at or above 10²¹ JavaScript switches to exponent notation; such
values are outside the model, which is restricted to double-exact integers.) -/
def intToChars (n : Int) : List Char :=
  if n < 0 then '-' :: natToChars n.natAbs else natToChars n.toNat

def natFromChars (cs : List Char) : Nat :=
  cs.foldl (fun a c => a * 10 + (c.toNat - 48)) 0

/-! ## The Value data model (§3 of the spec, `jsurl.js`) -/

mutual
inductive JsValue : Type where
  | undef : JsValue
  | null : JsValue
  | bool : Bool → JsValue
  | num : Int → JsValue
  | nan : JsValue
  | str : String → JsValue
  | arr : JsArr → JsValue
  | obj : JsObj → JsValue
  deriving DecidableEq

inductive JsArr : Type where
  | nil : JsArr
  | cons : JsValue → JsArr → JsArr
  deriving DecidableEq

inductive JsObj : Type where
  | nil : JsObj
  | cons : String → JsValue → JsObj → JsObj
  deriving DecidableEq
end

def JsArr.push : JsArr → JsValue → JsArr
  | .nil, v => .cons v .nil
  | .cons x t, v => .cons x (t.push v)

/-- JS property read `o[k]` on a parsed value: objects yield the field,
everything else (arrays, primitives) yields `undefined` for the field names
used by this engine. -/
def getField : JsValue → String → JsValue
  | .obj o, k => go o k
  | _, _ => .undef
where go : JsObj → String → JsValue
  | .nil, _ => .undef
  | .cons k' v t, k => if k' = k then v else go t k

/-- JS property write `o[k] = v`: an existing key keeps its position and gets
the new value; a new key is appended (insertion order). -/
def setField : JsObj → String → JsValue → JsObj
  | .nil, k, v => .cons k v .nil
  | .cons k' v' t, k, v => if k' = k then .cons k' v t else .cons k' v' (setField t k v)

/-- JS truthiness of a Value. -/
def jsFalsy : JsValue → Bool
  | .undef => true
  | .null => true
  | .bool b => !b
  | .num n => n = 0
  | .nan => true
  | .str s => s = ""
  | _ => false

/-! ## JSURL stringify (`_encode`, `_stringify` of jsurl.js) -/

/-- `_encode`: the escape for a single character.  Note the source's
`_encodeMap` maps `'` to `!` and `!` to `'` (a swap). -/
def encodeCh (c : Char) : List Char :=
  if c = '\'' then ['!']
  else if c = '!' then ['\'']
  else if c.toNat ≤ 0x7f then '*' :: hexUpper c.toNat
  else '*' :: '*' :: hexUpper c.toNat
where
  hexUpperAux : Nat → Nat → List Char
    | 0, _ => []
    | f + 1, n =>
      if n < 16 then [hexDigitU n] else hexUpperAux f (n / 16) ++ [hexDigitU (n % 16)]
  hexDigitU (n : Nat) : Char :=
    if n % 16 < 10 then charOfCode (48 + n % 16) else charOfCode (55 + n % 16)
  hexUpper (n : Nat) : List Char := hexUpperAux (n + 1) n

/-- `s.replace(/[set]/g, _encode)`: every character in `set` is replaced by
its `_encode` escape (a regex character class acts per character). -/
def replaceIn (set : List Char) (s : List Char) : List Char :=
  s.flatMap (fun c => if c ∈ set then encodeCh c else [c])

/-- `s.replace(/%/g, "*25")`. -/
def replacePct (s : List Char) : List Char :=
  s.flatMap (fun c => if c = '%' then ['*', '2', '5'] else [c])

/-- Body escaping of a string Value: `v.replace(/[!'*]/g, _encode).replace(/%/g, "*25")`. -/
def encBody (s : List Char) : List Char := replacePct (replaceIn ['!', '\'', '*'] s)

/-- Key escaping: `key.replace(/[!'*%]/g, _encode)`. -/
def encKey (s : List Char) : List Char := replaceIn ['!', '\'', '*', '%'] s

def joinTilde : List (List Char) → List Char
  | [] => []
  | [x] => x
  | x :: xs => x ++ '~' :: joinTilde xs

mutual
/-- `_stringify` of jsurl.js, producing the character list of the encoding. -/
def encChars : JsValue → List Char
  | .undef => []
  | .null => ['~', 'n', 'u', 'l', 'l']
  | .bool true => ['~', 't', 'r', 'u', 'e']
  | .bool false => ['~', 'f', 'a', 'l', 's', 'e']
  | .num n => '~' :: intToChars n
  | .nan => ['~', 'n', 'u', 'l', 'l']
  | .str s => '~' :: '\'' :: encBody s.data
  | .arr a => '~' :: '(' :: (encArrItems a ++ [')'])
  | .obj o => '~' :: '(' :: (joinTilde (encObjPairs o) ++ [')'])

/-- Array elements: `v.map(item => _stringify(item) || "~null").join("")`. -/
def encArrItems : JsArr → List Char
  | .nil => []
  | .cons v t =>
    (let e := encChars v; if e.isEmpty then ['~', 'n', 'u', 'l', 'l'] else e) ++ encArrItems t

/-- Object pairs: keys in insertion order, entries whose value stringifies to
empty text are omitted; the emitted pairs are later joined with `~`. -/
def encObjPairs : JsObj → List (List Char)
  | .nil => []
  | .cons k v t =>
    let e := encChars v
    if e.isEmpty then encObjPairs t else (encKey k.data ++ e) :: encObjPairs t
end

/-- `JSURL.stringify`. -/
def jsurlStringify (v : JsValue) : String := ⟨encChars v⟩

/-! ## JSURL parse (`_parse` of jsurl.js)

The JS routine walks an index over the input; the model consumes the input
list and returns the unread remainder.  The string/key/number scanners always
advance and are plain structural recursions; `_parse` itself and its two
container loops can fail to advance (and then loop forever in JS), so they
take fuel, with `none` modelling non-termination -- `_parse` has no error
result of its own. -/

/-- The body scanner of the string case: stops before `~` or `)` (or at the
end of input) and interprets the `!`, `*25`, `*HH`, `**HHHH` escapes.  After
a `*` the JS advances the index by a fixed 2 or 4 even past the end of the
input (the loop then exits), which the short-input arms reproduce. -/
def parseStrBody : List Char → List Char × List Char
  | [] => ([], [])
  | c :: r =>
    if c = '~' || c = ')' then ([], c :: r)
    else if c = '!' then
      let p := parseStrBody r
      ('\'' :: p.1, p.2)
    else if c = '*' then
      match r with
      | '*' :: a :: b :: d :: e :: r2 =>
        let p := parseStrBody r2
        (fromCharCode (parseHexPrefix [a, b, d, e]) :: p.1, p.2)
      | '*' :: r2 => ([fromCharCode (parseHexPrefix r2)], [])
      | '2' :: '5' :: r2 =>
        let p := parseStrBody r2
        ('%' :: p.1, p.2)
      | x :: y :: r2 =>
        let p := parseStrBody r2
        (fromCharCode (parseHexPrefix [x, y]) :: p.1, p.2)
      | [x] => ([fromCharCode (parseHexPrefix [x])], [])
      | [] => ([charOfCode 0], [])
    else
      let p := parseStrBody r
      (c :: p.1, p.2)

/-- The key scanner of the object case: stops before `~`, `)` or `(` and
interprets the `!`, `*HH`, `**HHHH` escapes (no special `*25` rule; the
generic two-digit escape already yields `%`). -/
def parseKey : List Char → List Char × List Char
  | [] => ([], [])
  | c :: r =>
    if c = '~' || c = ')' || c = '(' then ([], c :: r)
    else if c = '!' then
      let p := parseKey r
      ('\'' :: p.1, p.2)
    else if c = '*' then
      match r with
      | '*' :: a :: b :: d :: e :: r2 =>
        let p := parseKey r2
        (fromCharCode (parseHexPrefix [a, b, d, e]) :: p.1, p.2)
      | '*' :: r2 => ([fromCharCode (parseHexPrefix r2)], [])
      | x :: y :: r2 =>
        let p := parseKey r2
        (fromCharCode (parseHexPrefix [x, y]) :: p.1, p.2)
      | [x] => ([fromCharCode (parseHexPrefix [x])], [])
      | [] => ([charOfCode 0], [])
    else
      let p := parseKey r
      (c :: p.1, p.2)

def notTermCh (c : Char) : Bool := !(c == '~' || c == ')')

/-- `Number(numStr)` restricted to the integer numerals this engine uses:
the empty string is 0, optionally signed digit runs are integers, and every
other numeral is mapped to `nan` (see the module comment). -/
def jsNumberOf (cs : List Char) : JsValue :=
  if cs.isEmpty then .num 0
  else if cs.all isDigitCh then .num (natFromChars cs)
  else
    match cs with
    | '-' :: ds => if !ds.isEmpty && ds.all isDigitCh then .num (-(natFromChars ds : Int)) else .nan
    | _ => .nan

/-- In the separator-skip of the object loop, the look-ahead characters that
block the skip (they could start a value: `(`, `'`, `n`, `t`, `f`, a digit,
or `-`). -/
def sepLookBlocks (c : Char) : Bool :=
  c == '(' || c == '\'' || c == 'n' || c == 't' || c == 'f' || isDigitCh c || c == '-'

/-- After an object value: skip a `~` separator unless the next character
could start a value (then the `~` is left for the value parser). -/
def skipSep : List Char → List Char
  | '~' :: r =>
    match r with
    | [] => r
    | c :: _ => if sepLookBlocks c then '~' :: r else r
  | s => s

mutual
/-- `_parse(str, pos)`.  Returns the parsed value and the unread remainder;
`none` is exhaustion of fuel, i.e. the model of a non-terminating run.
(Every mutual participant spends one unit of fuel on entry; `costV` below
accounts for this.) -/
def parseVal : Nat → List Char → Option (JsValue × List Char)
  | 0, _ => none
  | _ + 1, [] => some (.undef, [])
  | f + 1, c :: s => if c = '~' then parseTilde f s else some (.undef, c :: s)

/-- The body of `_parse` after the leading `~` was consumed: dispatch on the
next character (`s` is the text after the `~`; an exhausted input falls
through the dispatch into the number scan, `Number("") = 0`). -/
def parseTilde : Nat → List Char → Option (JsValue × List Char)
  | 0, _ => none
  | f + 1, s =>
    if s.head? = some '(' then
      let r := s.tail
      if r.head? = some ')' then some (.arr .nil, r.tail)
      else if r.head? = some '~' then parseArrLoop f r .nil
      else parseObjLoop f r .nil
    else if s.head? = some '\'' then
      let p := parseStrBody s.tail
      some (.str ⟨p.1⟩, p.2)
    else if s.head? = some 'n' then
      if s.take 4 = ['n', 'u', 'l', 'l'] then some (.null, s.drop 4) else some (.undef, s)
    else if s.head? = some 't' then
      if s.take 4 = ['t', 'r', 'u', 'e'] then some (.bool true, s.drop 4) else some (.undef, s)
    else if s.head? = some 'f' then
      if s.take 5 = ['f', 'a', 'l', 's', 'e'] then some (.bool false, s.drop 5)
      else some (.undef, s)
    else
      let ds := s.takeWhile notTermCh
      some (jsNumberOf ds, s.drop ds.length)

/-- The array element loop: a do/while that parses elements until the unread
input starts with `)` or is exhausted (the closing `)` is consumed when
present but not required). -/
def parseArrLoop : Nat → List Char → JsArr → Option (JsValue × List Char)
  | 0, _, _ => none
  | f + 1, s, acc =>
    match parseVal f s with
    | none => none
    | some (v, rem) =>
      let acc2 := acc.push v
      match rem with
      | ')' :: r => some (.arr acc2, r)
      | [] => some (.arr acc2, [])
      | _ => parseArrLoop f rem acc2

/-- The object pair loop: key, value, optional `~` separator, until the
unread input starts with `)` or is exhausted. -/
def parseObjLoop : Nat → List Char → JsObj → Option (JsValue × List Char)
  | 0, _, _ => none
  | f + 1, s, acc =>
    let pk := parseKey s
    match parseVal f pk.2 with
    | none => none
    | some (v, rem) =>
      let acc2 := setField acc ⟨pk.1⟩ v
      let rem2 := skipSep rem
      match rem2 with
      | ')' :: r => some (.obj acc2, r)
      | [] => some (.obj acc2, [])
      | _ => parseObjLoop f rem2 acc2
end

/-- `JSURL.parse` at explicit fuel: empty/absent text is `undefined` without
touching `_parse`. -/
def jsurlParseF (fuel : Nat) (s : String) : Option JsValue :=
  if s = "" then some .undef else (parseVal fuel s.data).map Prod.fst

/-- `JSURL.parse`.  The default fuel `2·length + 2` is proved sufficient for
every terminating run this development relies on. -/
def jsurlParse (s : String) : Option JsValue := jsurlParseF (2 * s.length + 2) s

/-- `JSURL.tryParse(str, defaultValue)`: `JSURL.parse(str) || defaultValue`
inside a try/catch.  No terminating run of `_parse` throws, so the catch is
dead; the `||` makes any falsy parse result collapse to the default.  A
non-terminating parse (`none`) is not caught either -- it propagates. -/
def jsurlTryParse (s : String) (d : JsValue) : Option JsValue :=
  match jsurlParse s with
  | none => none
  | some v => some (if jsFalsy v then d else v)

/-- `tryParse(s, null)` as every caller in the content script uses it,
followed by the caller's `if (!obj)` truthiness test: `none` means the caller
takes its failure path (this also absorbs the non-terminating case, which in
JS would simply never reach the caller). -/
def tryParseNull (s : String) : Option JsValue :=
  match jsurlParse s with
  | none => none
  | some v => if jsFalsy v then none else some v

/-! ## The round-tripping fragment of the Value grammar

`parse ∘ stringify` is not the identity on all Values (see the theorems for
C1): string bodies pass `~`, `)` through unescaped and encode `!` as `'`;
keys additionally break on `(`; an empty map prints as the empty array; a
non-first key whose first character could begin a value (`n`, `t`, `f`, `-`,
digit) defeats the separator skip; duplicate keys collapse.  `goodV` is the
fragment that excludes exactly these cases (JS numbers further restricted to
double-exact integers, cf. the module comment). -/

def strCharOK (c : Char) : Bool := !(c == '!' || c == '~' || c == ')')

def keyCharOK (c : Char) : Bool := !(c == '!' || c == '~' || c == ')' || c == '(')

def keyOK (k : String) : Bool := !k.data.isEmpty && k.data.all keyCharOK

/-- For non-first keys: after escaping, the first character must not be one
the object loop's separator skip treats as the start of a value.  (`'`
escapes to `!`, `*` and `%` escape to `*`, which are all safe.) -/
def keyStartOK (k : String) : Bool :=
  match k.data with
  | [] => false
  | c :: _ => c == '\'' || !sepLookBlocks c

def objKeys : JsObj → List String
  | .nil => []
  | .cons k _ t => k :: objKeys t

def hasKey : JsObj → String → Bool
  | .nil, _ => false
  | .cons k' _ t, k => k' == k || hasKey t k

mutual
def goodV : JsValue → Bool
  | .undef => false
  | .null => true
  | .bool _ => true
  | .num n => n.natAbs ≤ 9007199254740992
  | .nan => false
  | .str s => s.data.all strCharOK
  | .arr a => goodA a
  | .obj o =>
    match o with
    | .nil => false
    | .cons k v t => keyOK k && !hasKey t k && goodV v && goodOTail t

def goodA : JsArr → Bool
  | .nil => true
  | .cons v t => goodV v && goodA t

def goodOTail : JsObj → Bool
  | .nil => true
  | .cons k v t => keyOK k && keyStartOK k && !hasKey t k && goodV v && goodOTail t
end

/- Fuel consumed by a terminating parse of an encoded Value: two units per
value (`parseVal` and `parseTilde` entries) and one per container-loop
iteration. -/
mutual
def costV : JsValue → Nat
  | .arr a => 2 + costA a
  | .obj o => 2 + costO o
  | _ => 2

def costA : JsArr → Nat
  | .nil => 0
  | .cons v t => 1 + costV v + costA t

def costO : JsObj → Nat
  | .nil => 0
  | .cons _ v t => 1 + costV v + costO t
end

def JsArr.append : JsArr → JsArr → JsArr
  | .nil, b => b
  | .cons v t, b => .cons v (t.append b)

def JsObj.append : JsObj → JsObj → JsObj
  | .nil, b => b
  | .cons k v t, b => .cons k v (t.append b)

/-- The encoding of the tail pairs of an object, each preceded by the `~`
separator the join inserts. -/
def objTailChars : JsObj → List Char
  | .nil => []
  | .cons k v t => '~' :: (encKey k.data ++ encChars v) ++ objTailChars t

/-- A character list whose head (if any) terminates a number or string scan. -/
def headStop : List Char → Bool
  | [] => true
  | c :: _ => c = '~' || c = ')'

/-- A character list whose head (if any) terminates a key scan. -/
def headKeyStop : List Char → Bool
  | [] => true
  | c :: _ => c = '~' || c = ')' || c = '('

/-- The Value shapes whose encodings need a terminating context. -/
def needsTerm : JsValue → Bool
  | .num _ => true
  | .str _ => true
  | _ => false

/-- The combined effect of the two sequential replaces of `_stringify` on one
body character. -/
def bodyCh (c : Char) : List Char :=
  if c = '!' then ['\'']
  else if c = '\'' then ['!']
  else if c = '*' then ['*', '2', 'A']
  else if c = '%' then ['*', '2', '5']
  else [c]

/-! ## UTF-8 and percent coding (for `decodeURIComponent`/`encodeURIComponent`
and `URLSearchParams`)

The inputs this repository feeds through these functions are ASCII; the
UTF-8 treatment below matches JavaScript on those and on well-formed
multi-byte escapes. -/

def chrN (n : Nat) : Char := Char.ofNat n

def utf8Bytes (c : Char) : List Nat :=
  let n := c.toNat
  if n < 0x80 then [n]
  else if n < 0x800 then [0xC0 + n / 64, 0x80 + n % 64]
  else if n < 0x10000 then [0xE0 + n / 4096, 0x80 + n / 64 % 64, 0x80 + n % 64]
  else [0xF0 + n / 262144, 0x80 + n / 4096 % 64, 0x80 + n / 64 % 64, 0x80 + n % 64]

def isContByte (b : Nat) : Bool := 0x80 ≤ b && b < 0xC0

/-- Strict UTF-8 decoding; `none` models a `URIError`.  (Overlong forms are
not rejected; no input of this development produces one.) -/
def utf8Decode : List Nat → Option (List Char)
  | [] => some []
  | b :: r =>
    if b < 0x80 then (utf8Decode r).map (chrN b :: ·)
    else if b < 0xC0 then none
    else if b < 0xE0 then
      match r with
      | b2 :: r2 =>
        if isContByte b2 then (utf8Decode r2).map (chrN ((b - 0xC0) * 64 + (b2 - 0x80)) :: ·)
        else none
      | [] => none
    else if b < 0xF0 then
      match r with
      | b2 :: b3 :: r2 =>
        if isContByte b2 && isContByte b3 then
          (utf8Decode r2).map (chrN ((b - 0xE0) * 4096 + (b2 - 0x80) * 64 + (b3 - 0x80)) :: ·)
        else none
      | _ => none
    else if b < 0xF8 then
      match r with
      | b2 :: b3 :: b4 :: r2 =>
        if isContByte b2 && isContByte b3 && isContByte b4 then
          (utf8Decode r2).map
            (chrN ((b - 0xF0) * 262144 + (b2 - 0x80) * 4096 + (b3 - 0x80) * 64 + (b4 - 0x80)) :: ·)
        else none
      | _ => none
    else none

/-- Lenient UTF-8 decoding (as `URLSearchParams` parsing behaves): a broken
sequence yields U+FFFD and decoding continues (fuel-indexed for structural
recursion; the wrapper supplies enough fuel for any input). -/
def utf8DecodeLenientF : Nat → List Nat → List Char
  | 0, _ => []
  | _ + 1, [] => []
  | f + 1, b :: r =>
    if b < 0x80 then chrN b :: utf8DecodeLenientF f r
    else if b < 0xC0 then chrN 0xFFFD :: utf8DecodeLenientF f r
    else if b < 0xE0 then
      match r with
      | b2 :: r2 =>
        if isContByte b2 then chrN ((b - 0xC0) * 64 + (b2 - 0x80)) :: utf8DecodeLenientF f r2
        else chrN 0xFFFD :: utf8DecodeLenientF f r
      | [] => [chrN 0xFFFD]
    else if b < 0xF0 then
      match r with
      | b2 :: b3 :: r2 =>
        if isContByte b2 && isContByte b3 then
          chrN ((b - 0xE0) * 4096 + (b2 - 0x80) * 64 + (b3 - 0x80)) :: utf8DecodeLenientF f r2
        else chrN 0xFFFD :: utf8DecodeLenientF f r
      | _ => [chrN 0xFFFD]
    else if b < 0xF8 then
      match r with
      | b2 :: b3 :: b4 :: r2 =>
        if isContByte b2 && isContByte b3 && isContByte b4 then
          chrN ((b - 0xF0) * 262144 + (b2 - 0x80) * 4096 + (b3 - 0x80) * 64 + (b4 - 0x80))
            :: utf8DecodeLenientF f r2
        else chrN 0xFFFD :: utf8DecodeLenientF f r
      | _ => [chrN 0xFFFD]
    else chrN 0xFFFD :: utf8DecodeLenientF f r

def utf8DecodeLenient (bs : List Nat) : List Char := utf8DecodeLenientF (bs.length + 1) bs

/-- The byte stream of a percent-encoded text (literal characters contribute
their UTF-8 bytes); `none` models a `URIError` on a malformed `%` escape. -/
def pctBytes : List Char → Option (List Nat)
  | [] => some []
  | '%' :: a :: b :: r =>
    if isHexDigitCh a && isHexDigitCh b then
      (pctBytes r).map (fun bs => (hexVal a * 16 + hexVal b) :: bs)
    else none
  | '%' :: _ => none
  | c :: r => (pctBytes r).map (utf8Bytes c ++ ·)

/-- `decodeURIComponent`; `none` models a thrown `URIError`. -/
def percentDecodeS (s : String) : Option String :=
  match pctBytes s.data with
  | none => none
  | some bs => (utf8Decode bs).map (fun cs => ⟨cs⟩)

def hexPairU (b : Nat) : List Char :=
  [(if b / 16 % 16 < 10 then chrN (48 + b / 16 % 16) else chrN (55 + b / 16 % 16)),
   (if b % 16 < 10 then chrN (48 + b % 16) else chrN (55 + b % 16))]

/-- The characters `encodeURIComponent` leaves unescaped. -/
def isUriUnreserved (c : Char) : Bool :=
  (65 ≤ c.toNat && c.toNat ≤ 90) || (97 ≤ c.toNat && c.toNat ≤ 122) ||
  isDigitCh c || c = '-' || c = '_' || c = '.' || c = '!' || c = '~' || c = '*' ||
  c = '\'' || c = '(' || c = ')'

/-- `encodeURIComponent`. -/
def encodeURIComponentS (s : String) : String :=
  ⟨s.data.flatMap (fun c =>
    if isUriUnreserved c then [c] else (utf8Bytes c).flatMap (fun b => '%' :: hexPairU b))⟩

def dollarToPct (s : List Char) : List Char := s.map (fun c => if c = '$' then '%' else c)

def pctToDollar (s : List Char) : List Char := s.map (fun c => if c = '%' then '$' else c)

/-! ## Local-civil time rendering (`toJSTString` of the content script)

`Intl.DateTimeFormat("sv-SE", …, timeZone: "Asia/Tokyo")` renders the instant
as a Japan-standard-time wall clock (fixed UTC+9, no DST), reformatted to
`YYYY-MM-DDTHH:MM:SS.000`. -/

/-- Civil date from days since the 1970-01-01 epoch (proleptic Gregorian). -/
def civilFromDays (z0 : Int) : Int × Int × Int :=
  let z := z0 + 719468
  let era := z.ediv 146097
  let doe := z.emod 146097
  let yoe := (doe - doe.ediv 1460 + doe.ediv 36524 - doe.ediv 146096).ediv 365
  let y := yoe + era * 400
  let doy := doe - (365 * yoe + yoe.ediv 4 - yoe.ediv 100)
  let mp := (5 * doy + 2).ediv 153
  let d := doy - (153 * mp + 2).ediv 5 + 1
  let m := mp + (if mp < 10 then 3 else -9)
  (if m ≤ 2 then y + 1 else y, m, d)

def pad2 (n : Nat) : List Char := if n < 10 then '0' :: natToChars n else natToChars n

def pad4 (n : Nat) : List Char :=
  if n < 10 then '0' :: '0' :: '0' :: natToChars n
  else if n < 100 then '0' :: '0' :: natToChars n
  else if n < 1000 then '0' :: natToChars n
  else natToChars n

/-- `toJSTString(epochMs)`. -/
def toJSTString (epochMs : Int) : String :=
  let t := epochMs + 32400000
  let days := t.ediv 86400000
  let msod := t.emod 86400000
  let c := civilFromDays days
  let secs := msod.ediv 1000
  let hh := secs.ediv 3600
  let mm := (secs.emod 3600).ediv 60
  let ss := secs.emod 60
  ⟨pad4 c.1.toNat ++ '-' :: pad2 c.2.1.toNat ++ '-' :: pad2 c.2.2.toNat ++
    'T' :: pad2 hh.toNat ++ ':' :: pad2 mm.toNat ++ ':' :: pad2 ss.toNat ++ ['.', '0', '0', '0']⟩

/-! ## Service detection (`detectService` of the content script) -/

/-- `detectService()`, a pure function of `location.href`, `location.pathname`
and `location.hash`. -/
def detectService (url pathname hash : String) : String :=
  if containsSub pathname "/cloudwatch" && containsSub hash "metricsV2" then
    "cloudwatch-metrics"
  else if containsSub pathname "/cloudwatch" && containsSub hash "logsV2:log-groups" &&
      containsSub hash "logs-insights" then
    "cloudwatch-logs-insights"
  else if containsSub pathname "/cloudwatch" &&
      (containsSub hash "logs-insights" ||
        (containsSub hash "logsV2" &&
          (containsSub hash "queryDetail" || containsSub hash "queryDetail$3D"))) then
    "cloudwatch-logs-insights"
  else if containsSub pathname "/cloudwatch" && containsSub hash "logsV2:log-groups" &&
      (containsSub hash "$3Fstart$3D" || containsSub hash "?start=") then
    "cloudwatch-logs"
  else if containsSub pathname "/xray" || containsSub pathname "/x-ray" then
    "xray"
  else if containsSub pathname "/cloudwatch" then
    if containsSub hash "?~(" then "cloudwatch-generic" else "cloudwatch-other"
  else if containsSub url ".console.aws.amazon.com" then
    "unknown"
  else
    "not-aws"

/-! ## Scheme parsers (content script of `src/unnamed/part_001`)

A parser result carries the canonical `start`/`end` epoch milliseconds; the
JS result object's `source`/`raw`/`capturedAt` fields are display metadata
and are not modelled.  `Option Int` fields model JS numbers that may be
`NaN` (`none`). -/

structure CWRange where
  startMs : Option Int
  stopMs : Option Int
  deriving DecidableEq

/-- `parseInt(x, 10)` after the `typeof x === "number" ? x : parseInt(x, 10)`
idiom: numbers pass through, numeric strings parse by longest signed digit
prefix, everything else is `NaN` (`String()` of the non-string non-number
values reaching this engine never starts with a digit). -/
def jsToIntP : JsValue → Option Int
  | .num n => some n
  | .str s =>
    match s.data with
    | '-' :: r =>
      let ds := r.takeWhile isDigitCh
      if ds.isEmpty then none else some (-(natFromChars ds : Int))
    | r =>
      let ds := r.takeWhile isDigitCh
      if ds.isEmpty then none else some (natFromChars ds)
  | _ => none

/-- The queryDetail extraction of `parseCloudWatchLogsInsights`: Format A
(`queryDetail=` with `$`→`%` then percent-decoding), and if that yields no
object, Format B (`queryDetail$3D` with raw JSURL text). -/
def extractInsightsObj (hash : String) : Option JsValue :=
  let objA : Option JsValue :=
    match matchParam hash "queryDetail=" with
    | none => none
    | some (_, v, _) =>
      match percentDecodeS ⟨dollarToPct v.data⟩ with
      | none => none
      | some dec => tryParseNull dec
  match objA with
  | some o => some o
  | none =>
    match matchParamCI hash "queryDetail$3D" with
    | none => none
    | some (_, v, _) => tryParseNull v

/-- `parseCloudWatchLogsInsights()` (the current version: the presence test
on `start`/`end` is `!= null`, not truthiness). -/
def parseCloudWatchLogsInsights (hash : String) (now : Int) : Option CWRange :=
  match extractInsightsObj hash with
  | none => none
  | some o =>
    let st := getField o "start"
    let en := getField o "end"
    if st ≠ .undef ∧ st ≠ .null ∧ en ≠ .undef ∧ en ≠ .null then
      let isNegNum : Bool := match st with | .num n => n < 0 | _ => false
      if getField o "timeType" = .str "RELATIVE" ∨ isNegNum = true then
        some { startMs := (jsToIntP st).map (fun s => now + s * 1000), stopMs := some now }
      else
        let s1 := (jsToIntP st).map (fun s => if s < 1000000000000 then s * 1000 else s)
        let e1 := (jsToIntP en).map (fun e => if e < 1000000000000 then e * 1000 else e)
        some { startMs := s1, stopMs := e1 }
    else
      if jsFalsy (getField o "unit") = false ∧ jsFalsy (getField o "value") = false then
        let mult : Int :=
          match getField o "unit" with
          | .str "s" => 1000
          | .str "m" => 60000
          | .str "h" => 3600000
          | .str "d" => 86400000
          | _ => 1000
        some { startMs := ((jsToIntP (getField o "value")).map (fun v => now - v * mult)),
               stopMs := some now }
      else none

/-- `/\$3F/gi`-style replacement of a three-character marker (ASCII
case-insensitive, left to right, non-overlapping). -/
def replaceTripleCI (p1 p2 p3 : Char) (rep : Char) : List Char → List Char
  | a :: b :: c :: r =>
    if toLowerA a = toLowerA p1 ∧ toLowerA b = toLowerA p2 ∧ toLowerA c = toLowerA p3 then
      rep :: replaceTripleCI p1 p2 p3 rep r
    else
      a :: replaceTripleCI p1 p2 p3 rep (b :: c :: r)
  | s => s

/-- The `$3F`/`$3D`/`$26` normalisation of `parseCloudWatchLogs`. -/
def normalizeLogsHash (s : List Char) : List Char :=
  replaceTripleCI '$' '2' '6' '&'
    (replaceTripleCI '$' '3' 'D' '=' (replaceTripleCI '$' '3' 'F' '?' s))

/-- Model of `/[?&]name(-?\d+)/.exec`: find `?` or `&` followed by the
literal `name` followed by an optionally signed digit run (at least one
digit); scanning continues at later positions on a failed attempt, as a
regex engine does. -/
def findParamInt (nm : List Char) : List Char → Option Int
  | [] => none
  | c :: r =>
    let attempt : Option Int :=
      if c = '?' || c = '&' then
        if nm.isPrefixOf r then
          match r.drop nm.length with
          | '-' :: ds =>
            let digits := ds.takeWhile isDigitCh
            if digits.isEmpty then none else some (-(natFromChars digits : Int))
          | ds =>
            let digits := ds.takeWhile isDigitCh
            if digits.isEmpty then none else some (natFromChars digits)
        else none
      else none
    match attempt with
    | some n => some n
    | none => findParamInt nm r

/-- `parseCloudWatchLogs()` (Log Events).  The trailing `isNaN` test of the
source never fires: both fields come from digit-run matches or `now`. -/
def parseCloudWatchLogs (hash : String) (now : Int) : Option CWRange :=
  let normalized := normalizeLogsHash hash.data
  match findParamInt "start=".data normalized with
  | none => none
  | some startVal =>
    let endVal := findParamInt "end=".data normalized
    if startVal < 0 then
      some { startMs := some (now + startVal),
             stopMs := some (match endVal with
               | some e => if e < 0 then now + e else now
               | none => now) }
    else
      some { startMs := some startVal,
             stopMs := some (match endVal with | some e => e | none => now) }

/-! ## Scheme injectors (content script of `src/unnamed/part_001`)

Each injector takes the current `location.hash` (or full href for X-Ray) and
the absolute range to write, and returns the text assigned back, `none`
modelling `return false`.  A JSURL value that parses to a primitive makes the
strict-mode property write throw `TypeError`, which the surrounding catch
turns into `false`; a property write on a parsed array succeeds but is
invisible to the array's re-serialisation. -/

/-- `injectCloudWatchMetrics(timeRange)`. -/
def injectCloudWatchMetrics (hash : String) (trStart trEnd : Int) : Option String :=
  match matchParam hash "graph=" with
  | none => none
  | some (pre, val, post) =>
    match tryParseNull val with
    | none => none
    | some (.obj o) =>
      let o2 := setField (setField o "start" (.str (toJSTString trStart)))
        "end" (.str (toJSTString trEnd))
      some (pre ++ "graph=" ++ jsurlStringify (.obj o2) ++ post)
    | some (.arr a) => some (pre ++ "graph=" ++ jsurlStringify (.arr a) ++ post)
    | some _ => none

/-- `injectCloudWatchLogsInsights(timeRange)`: Format A re-encodes with
`encodeURIComponent` then `%`→`$`; Format B splices raw JSURL after
`queryDetail$3D`. -/
def injectCloudWatchLogsInsights (hash : String) (trStart trEnd : Int) : Option String :=
  let objA : Option JsValue :=
    match matchParam hash "queryDetail=" with
    | none => none
    | some (_, v, _) =>
      match percentDecodeS ⟨dollarToPct v.data⟩ with
      | none => none
      | some dec => tryParseNull dec
  let picked : Option JsValue × Bool :=
    match objA with
    | some o => (some o, false)
    | none =>
      match matchParamCI hash "queryDetail$3D" with
      | none => (none, false)
      | some (_, v, _) => (tryParseNull v, true)
  match picked.1 with
  | none => none
  | some o =>
    let emit (newJsurl : String) : Option String :=
      if picked.2 then
        match matchParamCI hash "queryDetail$3D" with
        | none => none
        | some (pre, _, post) => some (pre ++ "queryDetail$3D" ++ newJsurl ++ post)
      else
        match matchParam hash "queryDetail=" with
        | none => none
        | some (pre, _, post) =>
          some (pre ++ "queryDetail=" ++ ⟨pctToDollar (encodeURIComponentS newJsurl).data⟩ ++ post)
    match o with
    | .obj kvs =>
      let kvs2 := setField (setField (setField kvs "start" (.num (trStart.ediv 1000)))
        "end" (.num (trEnd.ediv 1000))) "timeType" (.str "ABSOLUTE")
      emit (jsurlStringify (.obj kvs2))
    | .arr a => emit (jsurlStringify (.arr a))
    | _ => none

def stripHashMark : List Char → List Char
  | '#' :: r => r
  | s => s

/-- First match of `/marker-?\d+/i` (`marker` given lowercased): returns the
text before the match, the matched text, and the text after it. -/
def findNumSpanCI (marker : List Char) : List Char → Option (List Char × List Char × List Char)
  | [] => none
  | c :: r =>
    let attempt : Option (List Char × List Char × List Char) :=
      if (marker.map toLowerA).isPrefixOf ((c :: r).map toLowerA) then
        let matchedMk := (c :: r).take marker.length
        let after := (c :: r).drop marker.length
        let sgRest : List Char × List Char :=
          match after with
          | '-' :: ds => (['-'], ds)
          | ds => ([], ds)
        let digits := sgRest.2.takeWhile isDigitCh
        if digits.isEmpty then none
        else some ([], matchedMk ++ sgRest.1 ++ digits, sgRest.2.drop digits.length)
      else none
    match attempt with
    | some q => some q
    | none => (findNumSpanCI marker r).map (fun q => (c :: q.1, q.2.1, q.2.2))

/-- First match of `/[?&]nm-?\d+/`: (text before, delimiter, signed digits,
text after). -/
def findDelimNumSpan (nm : List Char) : List Char → Option (List Char × Char × List Char × List Char)
  | [] => none
  | c :: r =>
    let attempt : Option (List Char × Char × List Char × List Char) :=
      if c = '?' || c = '&' then
        if nm.isPrefixOf r then
          let after := r.drop nm.length
          let sgRest : List Char × List Char :=
            match after with
            | '-' :: ds => (['-'], ds)
            | ds => ([], ds)
          let digits := sgRest.2.takeWhile isDigitCh
          if digits.isEmpty then none
          else some ([], c, sgRest.1 ++ digits, sgRest.2.drop digits.length)
        else none
      else none
    match attempt with
    | some q => some q
    | none =>
      (findDelimNumSpan nm r).map (fun q => (c :: q.1, q.2.1, q.2.2.1, q.2.2.2))

/-- `injectCloudWatchLogs(timeRange)` (Log Events).  Note it returns success
even when no parameter matched (the replaces are no-ops then). -/
def injectCloudWatchLogs (hash : String) (trStart trEnd : Int) : Option String :=
  if containsSub hash "$3F" || containsSub hash "$3D" then
    let h1 :=
      match findNumSpanCI "$3fstart$3d".data hash.data with
      | some (pre, _, post) => pre ++ "$3Fstart$3D".data ++ intToChars trStart ++ post
      | none => hash.data
    let h2 :=
      match findNumSpanCI "$26end$3d".data h1 with
      | some (pre, _, post) => pre ++ "$26end$3D".data ++ intToChars trEnd ++ post
      | none =>
        if containsSub ⟨h1⟩ "$3Fstart$3D" then
          match findNumSpanCI "$3fstart$3d".data h1 with
          | some (pre, m, post) => pre ++ m ++ "$26end$3D".data ++ intToChars trEnd ++ post
          | none => h1
        else h1
    some ⟨stripHashMark h2⟩
  else
    let h1 :=
      match findDelimNumSpan "start=".data hash.data with
      | some (pre, d, _, post) => pre ++ d :: ("start=".data ++ intToChars trStart ++ post)
      | none => hash.data
    let h2 :=
      match findDelimNumSpan "end=".data h1 with
      | some (pre, d, _, post) => pre ++ d :: ("end=".data ++ intToChars trEnd ++ post)
      | none =>
        match findQStartSpan h1 with
        | some (pre, m, post) => pre ++ m ++ "&end=".data ++ intToChars trEnd ++ post
        | none => h1
    some ⟨stripHashMark h2⟩
where
  /- First match of `/(\?start=-?\d+)/` (case-sensitive, `?` only). -/
  findQStartSpan : List Char → Option (List Char × List Char × List Char)
    | [] => none
    | c :: r =>
      let attempt : Option (List Char × List Char × List Char) :=
        if c = '?' then
          if ("start=".data).isPrefixOf r then
            let after := r.drop 6
            let sgRest : List Char × List Char :=
              match after with
              | '-' :: ds => (['-'], ds)
              | ds => ([], ds)
            let digits := sgRest.2.takeWhile isDigitCh
            if digits.isEmpty then none
            else some ([], '?' :: ("start=".data ++ sgRest.1 ++ digits), sgRest.2.drop digits.length)
          else none
        else none
      match attempt with
      | some q => some q
      | none => (findQStartSpan r).map (fun q => (c :: q.1, q.2.1, q.2.2))

/-- `injectCloudWatchGeneric(timeRange)`.  A terminating parse of text
starting with `~(` is always truthy, so the source's `stateObj = {}` fallback
is unreachable; a non-terminating parse never returns in JS and is `none`
here. -/
def injectCloudWatchGeneric (hash : String) (trStart trEnd : Int) : Option String :=
  match breakOnSub "?~(".data hash.data with
  | none => none
  | some (pre, rest) =>
    match tryParseNull ⟨'~' :: '(' :: rest⟩ with
    | none => none
    | some (.obj o) =>
      let o2 := setField o "timeRange" (.arr (.cons (.num trStart) (.cons (.num trEnd) .nil)))
      some (⟨stripHashMark (pre ++ ['?'])⟩ ++ jsurlStringify (.obj o2))
    | some (.arr a) => some (⟨stripHashMark (pre ++ ['?'])⟩ ++ jsurlStringify (.arr a))
    | some _ => none

/-! ## URL / URLSearchParams model (for `injectXRay`) -/

structure UrlM where
  base : String
  search : String
  hashp : String
  deriving DecidableEq

/-- Split an href at the first `#` and then the first `?`.  `search` and
`hashp` hold the text after the markers, without the markers. -/
def parseUrl (href : String) : UrlM :=
  let p1 :=
    match breakOnSub ['#'] href.data with
    | none => (href.data, [])
    | some (a, b) => (a, b)
  let p2 :=
    match breakOnSub ['?'] p1.1 with
    | none => (p1.1, [])
    | some (a, b) => (a, b)
  { base := ⟨p2.1⟩, search := ⟨p2.2⟩, hashp := ⟨p1.2⟩ }

def splitOn (sep : Char) : List Char → List (List Char)
  | [] => [[]]
  | c :: r =>
    let rest := splitOn sep r
    if c = sep then [] :: rest
    else
      match rest with
      | [] => [[c]]
      | p :: ps => (c :: p) :: ps

/-- Decoding of one form-urlencoded token (`+` is space; a malformed `%` stays
literal). -/
def formUrlDecode (s : List Char) : List Char :=
  utf8DecodeLenient (formBytes s)
where
  formBytes : List Char → List Nat
    | [] => []
    | '+' :: r => 32 :: formBytes r
    | '%' :: a :: b :: r =>
      if isHexDigitCh a && isHexDigitCh b then (hexVal a * 16 + hexVal b) :: formBytes r
      else 37 :: formBytes (a :: b :: r)
    | '%' :: r => 37 :: formBytes r
    | c :: r => utf8Bytes c ++ formBytes r

def isFormSafe (c : Char) : Bool :=
  (65 ≤ c.toNat && c.toNat ≤ 90) || (97 ≤ c.toNat && c.toNat ≤ 122) ||
  isDigitCh c || c = '*' || c = '-' || c = '.' || c = '_'

/-- Serialisation of one form-urlencoded token (space is `+`; everything not
in `[A-Za-z0-9*\-._]` is `%XX` on UTF-8 bytes). -/
def formUrlEncode (s : List Char) : List Char :=
  s.flatMap (fun c =>
    if c = ' ' then ['+']
    else if isFormSafe c then [c]
    else (utf8Bytes c).flatMap (fun b => '%' :: hexPairU b))

/-- `new URLSearchParams(search)`. -/
def parseQS (s : List Char) : List (List Char × List Char) :=
  if s.isEmpty then []
  else
    (splitOn '&' s).filterMap (fun piece =>
      if piece.isEmpty then none
      else
        match breakOnSub ['='] piece with
        | none => some (formUrlDecode piece, [])
        | some (k, v) => some (formUrlDecode k, formUrlDecode v))

def searchParamsHas (ps : List (List Char × List Char)) (nm : List Char) : Bool :=
  ps.any (fun p => p.1 = nm)

/-- `URLSearchParams.set`: the first entry with the name is updated in place,
later ones are removed; a missing name is appended. -/
def searchParamsSet (ps : List (List Char × List Char)) (nm v : List Char) :
    List (List Char × List Char) :=
  if searchParamsHas ps nm then setFirst ps else ps ++ [(nm, v)]
where
  setFirst : List (List Char × List Char) → List (List Char × List Char)
    | [] => []
    | (k, v0) :: t =>
      if k = nm then (nm, v) :: t.filter (fun p => !(p.1 = nm : Bool)) else (k, v0) :: setFirst t

/-- `URLSearchParams.toString`: form-urlencoded re-serialisation. -/
def qsToString (ps : List (List Char × List Char)) : List Char :=
  joinAmp (ps.map (fun p => formUrlEncode p.1 ++ '=' :: formUrlEncode p.2))
where
  joinAmp : List (List Char) → List Char
    | [] => []
    | [x] => x
    | x :: xs => x ++ '&' :: joinAmp xs

def urlToString (u : UrlM) : String :=
  u.base ++ (if u.search = "" then "" else "?" ++ u.search) ++
    (if u.hashp = "" then "" else "#" ++ u.hashp)

/-- `/timeRange=([^&]*)/`-style match (only `&` ends the value). -/
def matchParamAmp (hash : String) (nm : String) : Option (String × String × String) :=
  match breakOnSub nm.data hash.data with
  | none => none
  | some (pre, rest) =>
    let v := rest.takeWhile (fun c => !(c == '&'))
    some (⟨pre⟩, ⟨v⟩, ⟨rest.drop v.length⟩)

/-- `injectXRay(timeRange)`, over the full href.  Returns the new href text.
Note the trailing branch that appends a `timeRange` parameter when none is
present. -/
def injectXRay (href : String) (trStart trEnd : Int) : Option String :=
  let newTimeRange := toJSTString trStart ++ "~" ++ toJSTString trEnd
  let u := parseUrl href
  let ps := parseQS u.search.data
  if searchParamsHas ps "timeRange".data then
    some (urlToString { u with search := ⟨qsToString (searchParamsSet ps "timeRange".data newTimeRange.data)⟩ })
  else if containsSub u.hashp "timeRange=" then
    match matchParamAmp u.hashp "timeRange=" with
    | none => none
    | some (pre, _, post) =>
      some (urlToString { u with hashp := pre ++ "timeRange=" ++ newTimeRange ++ post })
  else if u.hashp ≠ "" then
    some (urlToString { u with hashp := u.hashp ++ "&timeRange=" ++ newTimeRange })
  else
    some (urlToString { u with search := ⟨qsToString (searchParamsSet ps "timeRange".data newTimeRange.data)⟩ })

/-- A concrete Value exercising negative numbers, null, booleans, nested
arrays/maps, and string/key escapes, used to witness the round-trip
theorem. -/
def c1WitnessValue : JsValue :=
  .obj (.cons "a" (.arr (.cons (.num (-3600)) (.cons .null (.cons (.str "x%'Zé") .nil))))
    (.cons "q'b" (.bool true)
      (.cons "c" (.obj (.cons "d" (.num 0) .nil)) .nil)))

/-! ### Decimal numeral lemmas -/

theorem toNat_charOfCode (m : Nat) (h : m < 55296) : (charOfCode m).toNat = m := by
  unfold charOfCode Char.ofNat
  rw [Nat.mod_eq_of_lt (lt_trans h (by norm_num))]
  rw [dif_pos (Or.inl h)]
  simp [Char.ofNatAux, Char.toNat, UInt32.toNat, Nat.mod_eq_of_lt (lt_trans h (by norm_num : (55296:Nat) < 4294967296))]

theorem digitCh_toNat (n : Nat) : (digitCh n).toNat = 48 + n % 10 := by
  unfold digitCh
  exact toNat_charOfCode _ (by have := Nat.mod_lt n (show 0 < 10 by norm_num); omega)

theorem isDigitCh_digitCh (n : Nat) : isDigitCh (digitCh n) = true := by
  unfold isDigitCh
  rw [digitCh_toNat]
  have := Nat.mod_lt n (show 0 < 10 by norm_num)
  simp only [Bool.and_eq_true, decide_eq_true_eq]
  omega

theorem natDecChars_spec (f : Nat) : ∀ n, n < f →
    (natDecChars f n).all isDigitCh = true ∧ natDecChars f n ≠ [] ∧
    ∀ a, (natDecChars f n).foldl (fun a c => a * 10 + (c.toNat - 48)) a = a * 10 ^ (natDecChars f n).length + n := by
  induction f with
  | zero => intro n h; omega
  | succ f ih =>
    intro n h
    by_cases h10 : n < 10
    · refine ⟨by simp [natDecChars, h10, isDigitCh_digitCh], by simp [natDecChars, h10], ?_⟩
      intro a
      simp [natDecChars, h10, digitCh_toNat, Nat.mod_eq_of_lt h10]
    · have hn : 10 ≤ n := le_of_not_lt h10
      have hdiv : n / 10 < f := by
        have h1 : n / 10 < n := Nat.div_lt_self (by omega) (by norm_num)
        omega
      obtain ⟨hall, hne, hval⟩ := ih (n / 10) hdiv
      have heq : natDecChars (f + 1) n = natDecChars f (n / 10) ++ [digitCh (n % 10)] := by
        simp [natDecChars, h10]
      refine ⟨?_, by simp [heq], ?_⟩
      · rw [heq, List.all_append, hall]
        simp [isDigitCh_digitCh]
      · intro a
        rw [heq, List.foldl_append, hval a]
        simp only [List.foldl_cons, List.foldl_nil, List.length_append, List.length_cons,
          List.length_nil]
        rw [digitCh_toNat]
        have : 48 + n % 10 % 10 - 48 = n % 10 := by
          have := Nat.mod_lt n (show 0 < 10 by norm_num)
          omega
        rw [this, pow_succ]
        have := Nat.div_add_mod n 10
        ring_nf
        omega

theorem natToChars_all_digits (n : Nat) : (natToChars n).all isDigitCh = true :=
  (natDecChars_spec (n + 1) n (Nat.lt_succ_self n)).1

theorem natToChars_ne_nil (n : Nat) : natToChars n ≠ [] :=
  (natDecChars_spec (n + 1) n (Nat.lt_succ_self n)).2.1

theorem natFromChars_natToChars (n : Nat) : natFromChars (natToChars n) = n := by
  have := (natDecChars_spec (n + 1) n (Nat.lt_succ_self n)).2.2 0
  unfold natFromChars natToChars
  simpa using this

theorem jsNumberOf_digits (ds : List Char) (h1 : ds ≠ []) (h2 : ds.all isDigitCh = true) :
    jsNumberOf ds = .num (natFromChars ds) := by
  unfold jsNumberOf
  rw [if_neg (by simp [List.isEmpty_iff, h1]), if_pos h2]

theorem jsNumberOf_neg_digits (ds : List Char) (h1 : ds ≠ []) (h2 : ds.all isDigitCh = true) :
    jsNumberOf ('-' :: ds) = .num (-(natFromChars ds : Int)) := by
  have hfalse : ('-' :: ds).all isDigitCh = false := by
    simp only [List.all_cons]
    have hdash : isDigitCh '-' = false := by decide
    simp [hdash]
  have hds : (!ds.isEmpty && ds.all isDigitCh) = true := by
    simp [List.isEmpty_iff, h1, h2]
  simp [jsNumberOf, hfalse, hds]

theorem jsNumberOf_intToChars (n : Int) : jsNumberOf (intToChars n) = .num n := by
  by_cases hneg : n < 0
  · rw [show intToChars n = '-' :: natToChars n.natAbs from by simp [intToChars, hneg]]
    rw [jsNumberOf_neg_digits _ (natToChars_ne_nil _) (natToChars_all_digits _),
      natFromChars_natToChars]
    congr 1
    omega
  · rw [show intToChars n = natToChars n.toNat from by simp [intToChars, hneg]]
    rw [jsNumberOf_digits _ (natToChars_ne_nil _) (natToChars_all_digits _),
      natFromChars_natToChars]
    congr 1
    omega

/-! ### Body and key escaping, character by character -/

theorem replaceIn_cons (set : List Char) (c : Char) (s : List Char) :
    replaceIn set (c :: s) = (if c ∈ set then encodeCh c else [c]) ++ replaceIn set s := by
  simp [replaceIn]

theorem replacePct_append (a b : List Char) :
    replacePct (a ++ b) = replacePct a ++ replacePct b := by
  simp [replacePct]

theorem encBody_nil : encBody [] = [] := rfl

theorem encBody_cons (c : Char) (s : List Char) :
    encBody (c :: s) = bodyCh c ++ encBody s := by
  unfold encBody
  rw [replaceIn_cons, replacePct_append]
  congr 1
  rcases eq_or_ne c '!' with rfl | h1
  · rfl
  rcases eq_or_ne c '\'' with rfl | h2
  · rfl
  rcases eq_or_ne c '*' with rfl | h3
  · rfl
  rcases eq_or_ne c '%' with rfl | h4
  · rw [if_neg (by simp [h1, h2, h3])]
    rfl
  · rw [if_neg (by simp [h1, h2, h3])]
    simp [replacePct, bodyCh, h1, h2, h3, h4]

theorem encKey_nil : encKey [] = [] := rfl

theorem encKey_cons (c : Char) (s : List Char) :
    encKey (c :: s) = bodyCh c ++ encKey s := by
  unfold encKey
  rw [replaceIn_cons]
  congr 1
  rcases eq_or_ne c '!' with rfl | h1
  · rfl
  rcases eq_or_ne c '\'' with rfl | h2
  · rfl
  rcases eq_or_ne c '*' with rfl | h3
  · rfl
  rcases eq_or_ne c '%' with rfl | h4
  · rfl
  · rw [if_neg (by simp [h1, h2, h3, h4])]
    simp [bodyCh, h1, h2, h3, h4]

/-! ### Scanner stepping lemmas -/

theorem parseStrBody_stop (c : Char) (r : List Char) (h : (c = '~' || c = ')') = true) :
    parseStrBody (c :: r) = ([], c :: r) := by
  conv_lhs => rw [parseStrBody.eq_def]
  simp only []
  rw [if_pos h]

theorem parseStrBody_bang (r : List Char) :
    parseStrBody ('!' :: r) = ('\'' :: (parseStrBody r).1, (parseStrBody r).2) := by
  conv_lhs => rw [parseStrBody.eq_def]
  simp

theorem parseStrBody_star2A (r : List Char) :
    parseStrBody ('*' :: '2' :: 'A' :: r) = ('*' :: (parseStrBody r).1, (parseStrBody r).2) := by
  have h : fromCharCode (parseHexPrefix ['2', 'A']) = '*' := by decide
  conv_lhs => rw [parseStrBody.eq_def]
  simp [h]

theorem parseStrBody_star25 (r : List Char) :
    parseStrBody ('*' :: '2' :: '5' :: r) = ('%' :: (parseStrBody r).1, (parseStrBody r).2) := by
  conv_lhs => rw [parseStrBody.eq_def]
  simp

theorem parseStrBody_lit (c : Char) (r : List Char)
    (h1 : c ≠ '~') (h2 : c ≠ ')') (h3 : c ≠ '!') (h4 : c ≠ '*') :
    parseStrBody (c :: r) = (c :: (parseStrBody r).1, (parseStrBody r).2) := by
  conv_lhs => rw [parseStrBody.eq_def]
  simp [h1, h2, h3, h4]

theorem parseKey_stop (c : Char) (r : List Char) (h : (c = '~' || c = ')' || c = '(') = true) :
    parseKey (c :: r) = ([], c :: r) := by
  conv_lhs => rw [parseKey.eq_def]
  simp only []
  rw [if_pos h]

theorem parseKey_bang (r : List Char) :
    parseKey ('!' :: r) = ('\'' :: (parseKey r).1, (parseKey r).2) := by
  conv_lhs => rw [parseKey.eq_def]
  simp

theorem parseKey_star2A (r : List Char) :
    parseKey ('*' :: '2' :: 'A' :: r) = ('*' :: (parseKey r).1, (parseKey r).2) := by
  have h : fromCharCode (parseHexPrefix ['2', 'A']) = '*' := by decide
  conv_lhs => rw [parseKey.eq_def]
  simp [h]

theorem parseKey_star25 (r : List Char) :
    parseKey ('*' :: '2' :: '5' :: r) = ('%' :: (parseKey r).1, (parseKey r).2) := by
  have h : fromCharCode (parseHexPrefix ['2', '5']) = '%' := by decide
  conv_lhs => rw [parseKey.eq_def]
  simp [h]

theorem parseKey_lit (c : Char) (r : List Char)
    (h1 : c ≠ '~') (h2 : c ≠ ')') (h0 : c ≠ '(') (h3 : c ≠ '!') (h4 : c ≠ '*') :
    parseKey (c :: r) = (c :: (parseKey r).1, (parseKey r).2) := by
  conv_lhs => rw [parseKey.eq_def]
  simp [h1, h2, h0, h3, h4]

/-! ### Scanners invert the escapes -/

theorem parseStrBody_enc (s : List Char) (z : List Char)
    (hs : s.all strCharOK = true) (hz : headStop z = true) :
    parseStrBody (encBody s ++ z) = (s, z) := by
  induction s with
  | nil =>
    rw [encBody_nil, List.nil_append]
    cases z with
    | nil => rfl
    | cons c t =>
      unfold headStop at hz
      exact parseStrBody_stop c t hz
  | cons c t ih =>
    simp only [List.all_cons, Bool.and_eq_true] at hs
    obtain ⟨hc, ht⟩ := hs
    have hrec := ih ht
    unfold strCharOK at hc
    simp only [Bool.not_eq_true', Bool.or_eq_false_iff, beq_eq_false_iff_ne] at hc
    obtain ⟨⟨hne1, hne2⟩, hne3⟩ := hc
    rw [encBody_cons, List.append_assoc]
    rcases eq_or_ne c '\'' with rfl | hq
    · rw [show bodyCh '\'' = ['!'] from rfl]
      simp only [List.cons_append, List.nil_append]
      rw [parseStrBody_bang, hrec]
    rcases eq_or_ne c '*' with rfl | hst
    · rw [show bodyCh '*' = ['*', '2', 'A'] from rfl]
      simp only [List.cons_append, List.nil_append]
      rw [parseStrBody_star2A, hrec]
    rcases eq_or_ne c '%' with rfl | hpc
    · rw [show bodyCh '%' = ['*', '2', '5'] from rfl]
      simp only [List.cons_append, List.nil_append]
      rw [parseStrBody_star25, hrec]
    · rw [show bodyCh c = [c] from by simp [bodyCh, hne1, hq, hst, hpc]]
      simp only [List.cons_append, List.nil_append]
      rw [parseStrBody_lit c _ hne2 hne3 hne1 hst, hrec]

theorem parseKey_enc (k : List Char) (z : List Char)
    (hk : k.all keyCharOK = true) (hz : headKeyStop z = true) :
    parseKey (encKey k ++ z) = (k, z) := by
  induction k with
  | nil =>
    rw [encKey_nil, List.nil_append]
    cases z with
    | nil => rfl
    | cons c t =>
      unfold headKeyStop at hz
      exact parseKey_stop c t hz
  | cons c t ih =>
    simp only [List.all_cons, Bool.and_eq_true] at hk
    obtain ⟨hc, ht⟩ := hk
    have hrec := ih ht
    unfold keyCharOK at hc
    simp only [Bool.not_eq_true', Bool.or_eq_false_iff, beq_eq_false_iff_ne] at hc
    obtain ⟨⟨⟨hne1, hne2⟩, hne3⟩, hne4⟩ := hc
    rw [encKey_cons, List.append_assoc]
    rcases eq_or_ne c '\'' with rfl | hq
    · rw [show bodyCh '\'' = ['!'] from rfl]
      simp only [List.cons_append, List.nil_append]
      rw [parseKey_bang, hrec]
    rcases eq_or_ne c '*' with rfl | hst
    · rw [show bodyCh '*' = ['*', '2', 'A'] from rfl]
      simp only [List.cons_append, List.nil_append]
      rw [parseKey_star2A, hrec]
    rcases eq_or_ne c '%' with rfl | hpc
    · rw [show bodyCh '%' = ['*', '2', '5'] from rfl]
      simp only [List.cons_append, List.nil_append]
      rw [parseKey_star25, hrec]
    · rw [show bodyCh c = [c] from by simp [bodyCh, hne1, hq, hst, hpc]]
      simp only [List.cons_append, List.nil_append]
      rw [parseKey_lit c _ hne2 hne3 hne4 hne1 hst, hrec]

theorem intToChars_all_num (n : Int) : (intToChars n).all notTermCh = true := by
  have hd : ∀ c, isDigitCh c = true → notTermCh c = true := by
    intro c hc
    unfold notTermCh
    simp only [Bool.not_eq_true', Bool.or_eq_false_iff, beq_eq_false_iff_ne]
    constructor
    · intro heq; subst heq; exact absurd hc (by decide)
    · intro heq; subst heq; exact absurd hc (by decide)
  by_cases hneg : n < 0
  · simp only [intToChars, hneg, if_true, List.all_cons]
    rw [Bool.and_eq_true]
    refine ⟨by decide, ?_⟩
    have := natToChars_all_digits n.natAbs
    rw [List.all_eq_true] at this ⊢
    intro c hc
    exact hd c (this c hc)
  · simp only [intToChars, hneg, if_false]
    have := natToChars_all_digits n.toNat
    rw [List.all_eq_true] at this ⊢
    intro c hc
    exact hd c (this c hc)

/-! ### Structure lemmas for the encoding -/

theorem encChars_head (v : JsValue) (h : goodV v = true) : ∃ e, encChars v = '~' :: e := by
  cases v with
  | undef => simp [goodV] at h
  | nan => simp [goodV] at h
  | null => exact ⟨_, rfl⟩
  | bool b => cases b <;> exact ⟨_, rfl⟩
  | num n => exact ⟨_, rfl⟩
  | str s => exact ⟨_, rfl⟩
  | arr a => exact ⟨_, rfl⟩
  | obj o => exact ⟨_, rfl⟩

theorem encChars_ne_nil (v : JsValue) (h : goodV v = true) : encChars v ≠ [] := by
  obtain ⟨e, he⟩ := encChars_head v h
  simp [he]

theorem encArrItems_cons_good (x : JsValue) (t : JsArr) (h : goodV x = true) :
    encArrItems (.cons x t) = encChars x ++ encArrItems t := by
  cases hl : encChars x with
  | nil => exact absurd hl (encChars_ne_nil x h)
  | cons a b => simp [encArrItems, hl]

theorem encObjPairs_cons_good (k : String) (v : JsValue) (t : JsObj) (h : goodV v = true) :
    encObjPairs (.cons k v t) = (encKey k.data ++ encChars v) :: encObjPairs t := by
  cases hl : encChars v with
  | nil => exact absurd hl (encChars_ne_nil v h)
  | cons a b => simp [encObjPairs, hl]

theorem goodOTail_parts (k : String) (v : JsValue) (t : JsObj)
    (h : goodOTail (.cons k v t) = true) :
    keyOK k = true ∧ keyStartOK k = true ∧ hasKey t k = false ∧ goodV v = true ∧
      goodOTail t = true := by
  unfold goodOTail at h
  simp only [Bool.and_eq_true, Bool.not_eq_true'] at h
  tauto

theorem joinTilde_cons :
    ∀ (t : JsObj) (x : List Char), goodOTail t = true →
      joinTilde (x :: encObjPairs t) = x ++ objTailChars t
  | .nil, x, _ => by simp [encObjPairs, joinTilde, objTailChars]
  | .cons k2 v2 t2, x, ht => by
    obtain ⟨_, _, _, hv2, ht2⟩ := goodOTail_parts k2 v2 t2 ht
    rw [encObjPairs_cons_good k2 v2 t2 hv2]
    rw [show joinTilde (x :: (encKey k2.data ++ encChars v2) :: encObjPairs t2)
        = x ++ '~' :: joinTilde ((encKey k2.data ++ encChars v2) :: encObjPairs t2) from by
      simp [joinTilde]]
    rw [joinTilde_cons t2 _ ht2]
    simp [objTailChars]

theorem joinTilde_pairs (k : String) (v : JsValue) (t : JsObj)
    (hv : goodV v = true) (ht : goodOTail t = true) :
    joinTilde (encObjPairs (.cons k v t)) = (encKey k.data ++ encChars v) ++ objTailChars t := by
  rw [encObjPairs_cons_good k v t hv, joinTilde_cons t _ ht]

/-! ### Accumulator lemmas -/

theorem JsArr.push_append : ∀ (a : JsArr) (x : JsValue) (b : JsArr),
    (a.push x).append b = a.append (.cons x b)
  | .nil, _, _ => rfl
  | .cons y t, x, b => by
    show JsArr.cons y ((t.push x).append b) = JsArr.cons y (t.append (.cons x b))
    rw [JsArr.push_append t x b]

theorem JsArr.append_nil : ∀ (a : JsArr), a.append .nil = a
  | .nil => rfl
  | .cons y t => by
    show JsArr.cons y (t.append .nil) = JsArr.cons y t
    rw [JsArr.append_nil t]

theorem JsArr.push_eq_append (a : JsArr) (x : JsValue) :
    a.push x = a.append (.cons x .nil) := by
  calc a.push x = (a.push x).append .nil := (JsArr.append_nil _).symm
    _ = a.append (.cons x .nil) := JsArr.push_append a x .nil

theorem hasKey_append : ∀ (a b : JsObj) (k : String),
    hasKey (a.append b) k = (hasKey a k || hasKey b k)
  | .nil, _, _ => rfl
  | .cons k' v t, b, k => by
    show (k' == k || hasKey (t.append b) k) = ((k' == k || hasKey t k) || hasKey b k)
    rw [hasKey_append t b k, Bool.or_assoc]

theorem setField_append : ∀ (a : JsObj) (k : String) (v : JsValue),
    hasKey a k = false → setField a k v = a.append (.cons k v .nil)
  | .nil, _, _, _ => rfl
  | .cons k' v' t, k, v, h => by
    unfold hasKey at h
    simp only [Bool.or_eq_false_iff] at h
    obtain ⟨h1, h2⟩ := h
    show setField (.cons k' v' t) k v = JsObj.cons k' v' (t.append (.cons k v .nil))
    unfold setField
    rw [if_neg (by simpa using h1), setField_append t k v h2]

theorem JsObj.append_assoc : ∀ (a b c : JsObj),
    (a.append b).append c = a.append (b.append c)
  | .nil, _, _ => rfl
  | .cons k v t, b, c => by
    show JsObj.cons k v ((t.append b).append c) = JsObj.cons k v (t.append (b.append c))
    rw [JsObj.append_assoc t b c]

/-! ### Head analyses -/

theorem intToChars_head (n : Int) :
    ∃ c rest, intToChars n = c :: rest ∧ (c = '-' ∨ isDigitCh c = true) := by
  by_cases hneg : n < 0
  · exact ⟨'-', natToChars n.natAbs, by simp [intToChars, hneg], Or.inl rfl⟩
  · have hne := natToChars_ne_nil n.toNat
    have hall := natToChars_all_digits n.toNat
    cases hl : natToChars n.toNat with
    | nil => exact absurd hl hne
    | cons c rest =>
      refine ⟨c, rest, by simp [intToChars, hneg, hl], Or.inr ?_⟩
      rw [hl] at hall
      simp only [List.all_cons, Bool.and_eq_true] at hall
      exact hall.1

theorem numHead_ne (c : Char) (h : c = '-' ∨ isDigitCh c = true) :
    c ≠ '(' ∧ c ≠ '\'' ∧ c ≠ 'n' ∧ c ≠ 't' ∧ c ≠ 'f' := by
  rcases h with rfl | hd
  · refine ⟨?_, ?_, ?_, ?_, ?_⟩ <;> decide
  · refine ⟨?_, ?_, ?_, ?_, ?_⟩ <;> (intro heq; subst heq; exact absurd hd (by decide))

theorem keyOK_parts (k : String) (h : keyOK k = true) :
    k.data ≠ [] ∧ k.data.all keyCharOK = true := by
  unfold keyOK at h
  simp only [Bool.and_eq_true, Bool.not_eq_true'] at h
  exact ⟨by simpa [List.isEmpty_iff] using h.1, h.2⟩

theorem encKeyHead (k : String) (hk : keyOK k = true) :
    ∃ c cs, encKey k.data = c :: cs ∧ c ≠ ')' ∧ c ≠ '~' ∧
      (keyStartOK k = true → sepLookBlocks c = false) := by
  obtain ⟨hne, hall⟩ := keyOK_parts k hk
  cases hd : k.data with
  | nil => exact absurd hd hne
  | cons c0 rest =>
    rw [hd] at hall
    simp only [List.all_cons, Bool.and_eq_true] at hall
    have hc0 := hall.1
    unfold keyCharOK at hc0
    simp only [Bool.not_eq_true', Bool.or_eq_false_iff, beq_eq_false_iff_ne] at hc0
    obtain ⟨⟨⟨hb, ht⟩, hp⟩, hlp⟩ := hc0
    have hstart : keyStartOK k = true → (c0 = '\'' ∨ sepLookBlocks c0 = false) := by
      intro hs
      unfold keyStartOK at hs
      rw [hd] at hs
      simp only [Bool.or_eq_true, beq_iff_eq, Bool.not_eq_true'] at hs
      exact hs
    rw [encKey_cons]
    rcases eq_or_ne c0 '\'' with rfl | hq
    · exact ⟨'!', _, rfl, by decide, by decide, fun _ => by decide⟩
    rcases eq_or_ne c0 '*' with rfl | hst
    · exact ⟨'*', _, rfl, by decide, by decide, fun _ => by decide⟩
    rcases eq_or_ne c0 '%' with rfl | hpc
    · exact ⟨'*', _, rfl, by decide, by decide, fun _ => by decide⟩
    · refine ⟨c0, encKey rest, ?_, hp, ht, ?_⟩
      · rw [show bodyCh c0 = [c0] from by simp [bodyCh, hb, hq, hst, hpc]]
        rfl
      · intro hs
        rcases hstart hs with rfl | hblk
        · exact absurd rfl hq
        · exact hblk

theorem goodA_parts (x : JsValue) (t : JsArr) (h : goodA (.cons x t) = true) :
    goodV x = true ∧ goodA t = true := by
  unfold goodA at h
  simpa [Bool.and_eq_true] using h

theorem goodObj_parts (k : String) (v : JsValue) (t : JsObj)
    (h : goodV (.obj (.cons k v t)) = true) :
    keyOK k = true ∧ hasKey t k = false ∧ goodV v = true ∧ goodOTail t = true := by
  unfold goodV at h
  simp only [Bool.and_eq_true, Bool.not_eq_true'] at h
  tauto

theorem headStop_notTerm (r : List Char) (h : headStop r = true) :
    r = [] ∨ ∃ c t, r = c :: t ∧ notTermCh c = false := by
  cases r with
  | nil => exact Or.inl rfl
  | cons c t =>
    right
    refine ⟨c, t, rfl, ?_⟩
    unfold headStop at h
    unfold notTermCh
    simp only [Bool.or_eq_true, beq_iff_eq, decide_eq_true_eq] at h
    rcases h with rfl | rfl <;> decide

theorem headStop_arrRest (t : JsArr) (r : List Char) (ht : goodA t = true) :
    headStop (encArrItems t ++ ')' :: r) = true := by
  cases t with
  | nil => simp [encArrItems, headStop]
  | cons y t2 =>
    obtain ⟨hy, _⟩ := goodA_parts y t2 ht
    rw [encArrItems_cons_good y t2 hy]
    obtain ⟨e, he⟩ := encChars_head y hy
    rw [he]
    simp [headStop]

theorem headStop_objRest (t : JsObj) (r : List Char) :
    headStop (objTailChars t ++ ')' :: r) = true := by
  cases t with
  | nil => simp [objTailChars, headStop]
  | cons k2 v2 t2 => simp [objTailChars, headStop]

theorem headKeyStop_tilde (e : List Char) (r : List Char) :
    headKeyStop ('~' :: e ++ r) = true := by
  simp [headKeyStop]

/-! ### Take/drop over an encoded run -/

theorem takeWhile_all_append (p : Char → Bool) (a r : List Char)
    (ha : a.all p = true) (hr : r = [] ∨ ∃ c t, r = c :: t ∧ p c = false) :
    (a ++ r).takeWhile p = a ∧ (a ++ r).drop a.length = r := by
  constructor
  · induction a with
    | nil =>
      rcases hr with rfl | ⟨c, t, rfl, hc⟩
      · rfl
      · simp [List.takeWhile, hc]
    | cons x xs ih =>
      simp only [List.all_cons, Bool.and_eq_true] at ha
      simp [List.takeWhile, ha.1, ih ha.2]
  · exact List.drop_left a r

/-! ### Stepping lemmas for `parseVal`/`parseTilde` -/

theorem parseVal_succ_tilde (f : Nat) (s : List Char) :
    parseVal (f + 1) ('~' :: s) = parseTilde f s := by
  conv_lhs => rw [parseVal.eq_def]
  simp

theorem parseTilde_null (f : Nat) (r : List Char) :
    parseTilde (f + 1) ('n' :: 'u' :: 'l' :: 'l' :: r) = some (.null, r) := by
  conv_lhs => rw [parseTilde.eq_def]
  simp

theorem parseTilde_true (f : Nat) (r : List Char) :
    parseTilde (f + 1) ('t' :: 'r' :: 'u' :: 'e' :: r) = some (.bool true, r) := by
  conv_lhs => rw [parseTilde.eq_def]
  simp

theorem parseTilde_false (f : Nat) (r : List Char) :
    parseTilde (f + 1) ('f' :: 'a' :: 'l' :: 's' :: 'e' :: r) = some (.bool false, r) := by
  conv_lhs => rw [parseTilde.eq_def]
  simp

theorem parseTilde_strCase (f : Nat) (x : List Char) :
    parseTilde (f + 1) ('\'' :: x) = some (.str ⟨(parseStrBody x).1⟩, (parseStrBody x).2) := by
  conv_lhs => rw [parseTilde.eq_def]
  simp

theorem parseTilde_arrNil (f : Nat) (r : List Char) :
    parseTilde (f + 1) ('(' :: ')' :: r) = some (.arr .nil, r) := by
  conv_lhs => rw [parseTilde.eq_def]
  simp

theorem parseTilde_arrGo (f : Nat) (rest : List Char) :
    parseTilde (f + 1) ('(' :: '~' :: rest) = parseArrLoop f ('~' :: rest) .nil := by
  conv_lhs => rw [parseTilde.eq_def]
  simp

theorem parseTilde_objGo (f : Nat) (c : Char) (rest : List Char)
    (h1 : c ≠ ')') (h2 : c ≠ '~') :
    parseTilde (f + 1) ('(' :: c :: rest) = parseObjLoop f (c :: rest) .nil := by
  conv_lhs => rw [parseTilde.eq_def]
  simp [h1, h2]

theorem parseTilde_numCase (f : Nat) (s : List Char)
    (h : ∀ c, s.head? = some c → c ≠ '(' ∧ c ≠ '\'' ∧ c ≠ 'n' ∧ c ≠ 't' ∧ c ≠ 'f') :
    parseTilde (f + 1) s
      = some (jsNumberOf (s.takeWhile notTermCh), s.drop (s.takeWhile notTermCh).length) := by
  conv_lhs => rw [parseTilde.eq_def]
  cases s with
  | nil => simp
  | cons c t =>
    obtain ⟨n1, n2, n3, n4, n5⟩ := h c rfl
    simp [n1, n2, n3, n4, n5]

/-! ### `parse` inverts `stringify` on the round-tripping fragment -/

mutual

theorem parseVal_enc (v : JsValue) (r : List Char) (f : Nat)
    (hg : goodV v = true) (hf : costV v ≤ f)
    (hr : needsTerm v = true → headStop r = true) :
    parseVal f (encChars v ++ r) = some (v, r) := by
  have hc2 : 2 ≤ costV v := by cases v <;> simp [costV]
  obtain ⟨f2, rfl⟩ : ∃ f2, f = f2 + 2 := ⟨f - 2, by omega⟩
  cases v with
  | undef => simp [goodV] at hg
  | nan => simp [goodV] at hg
  | null =>
    show parseVal (f2 + 1 + 1) ('~' :: 'n' :: 'u' :: 'l' :: 'l' :: r) = some (.null, r)
    rw [parseVal_succ_tilde]
    exact parseTilde_null f2 r
  | bool b =>
    cases b with
    | true =>
      show parseVal (f2 + 1 + 1) ('~' :: 't' :: 'r' :: 'u' :: 'e' :: r) = some (.bool true, r)
      rw [parseVal_succ_tilde]
      exact parseTilde_true f2 r
    | false =>
      show parseVal (f2 + 1 + 1) ('~' :: 'f' :: 'a' :: 'l' :: 's' :: 'e' :: r)
        = some (.bool false, r)
      rw [parseVal_succ_tilde]
      exact parseTilde_false f2 r
  | num n =>
    show parseVal (f2 + 1 + 1) ('~' :: (intToChars n ++ r)) = some (.num n, r)
    rw [parseVal_succ_tilde]
    rw [parseTilde_numCase f2 _ ?hhead]
    case hhead =>
      intro c hc
      obtain ⟨c0, irest, hic, hc0⟩ := intToChars_head n
      rw [hic] at hc
      simp only [List.cons_append, List.head?_cons, Option.some.injEq] at hc
      subst hc
      exact numHead_ne c0 hc0
    obtain ⟨htw, hdr⟩ := takeWhile_all_append notTermCh (intToChars n) r
      (intToChars_all_num n) (headStop_notTerm r (hr rfl))
    rw [htw, hdr, jsNumberOf_intToChars]
  | str s =>
    show parseVal (f2 + 1 + 1) ('~' :: ('\'' :: (encBody s.data ++ r))) = some (.str s, r)
    rw [parseVal_succ_tilde, parseTilde_strCase]
    rw [parseStrBody_enc s.data r (by simpa [goodV] using hg) (hr rfl)]
  | arr a =>
    cases a with
    | nil =>
      show parseVal (f2 + 1 + 1) ('~' :: '(' :: ')' :: r) = some (.arr .nil, r)
      rw [parseVal_succ_tilde]
      exact parseTilde_arrNil f2 r
    | cons x t =>
      obtain ⟨hx, ht⟩ := goodA_parts x t (by simpa [goodV] using hg)
      obtain ⟨e, he⟩ := encChars_head x hx
      have harr : encChars (.arr (.cons x t)) ++ r
          = '~' :: '(' :: '~' :: (e ++ (encArrItems t ++ ')' :: r)) := by
        rw [show encChars (.arr (.cons x t))
            = '~' :: '(' :: (encArrItems (.cons x t) ++ [')']) from rfl]
        rw [encArrItems_cons_good x t hx, he]
        simp
      rw [harr]
      rw [show (f2 + 2) = (f2 + 1) + 1 from rfl, parseVal_succ_tilde, parseTilde_arrGo]
      rw [show '~' :: (e ++ (encArrItems t ++ ')' :: r))
          = encChars x ++ (encArrItems t ++ ')' :: r) from by rw [he]; rfl]
      rw [parseArrLoop_enc x t .nil r f2 hx ht (by simp [costV, costA] at hf; omega)]
      rfl
  | obj o =>
    cases o with
    | nil => simp [goodV] at hg
    | cons k v t =>
      obtain ⟨hk, hkt, hv, ht⟩ := goodObj_parts k v t hg
      obtain ⟨c0, cs, hek, hc0p, hc0t, _⟩ := encKeyHead k hk
      have hobj : encChars (.obj (.cons k v t)) ++ r
          = '~' :: '(' :: (c0 :: (cs ++ (encChars v ++ (objTailChars t ++ ')' :: r)))) := by
        rw [show encChars (.obj (.cons k v t))
            = '~' :: '(' :: (joinTilde (encObjPairs (.cons k v t)) ++ [')']) from rfl]
        rw [joinTilde_pairs k v t hv ht, hek]
        simp
      rw [hobj]
      rw [show (f2 + 2) = (f2 + 1) + 1 from rfl, parseVal_succ_tilde,
        parseTilde_objGo f2 c0 _ hc0p hc0t]
      rw [show c0 :: (cs ++ (encChars v ++ (objTailChars t ++ ')' :: r)))
          = encKey k.data ++ (encChars v ++ (objTailChars t ++ ')' :: r)) from by rw [hek]; rfl]
      rw [parseObjLoop_enc k v t .nil r f2 hk hv ht hkt rfl (fun _ _ => rfl)
        (by simp [costV, costO] at hf; omega)]
      rfl
termination_by sizeOf v

theorem parseArrLoop_enc (x : JsValue) (t : JsArr) (acc : JsArr) (r : List Char) (f : Nat)
    (hx : goodV x = true) (ht : goodA t = true) (hf : 1 + costV x + costA t ≤ f) :
    parseArrLoop f (encChars x ++ (encArrItems t ++ ')' :: r)) acc
      = some (.arr (acc.append (.cons x t)), r) := by
  obtain ⟨f1, rfl⟩ : ∃ f1, f = f1 + 1 := ⟨f - 1, by omega⟩
  conv_lhs => rw [parseArrLoop.eq_def]
  simp only []
  rw [parseVal_enc x (encArrItems t ++ ')' :: r) f1 hx (by omega)
    (fun _ => headStop_arrRest t r ht)]
  cases t with
  | nil =>
    simp only [encArrItems, List.nil_append]
    simp [JsArr.push_eq_append]
  | cons y t2 =>
    obtain ⟨hy, ht2⟩ := goodA_parts y t2 ht
    obtain ⟨e, he⟩ := encChars_head y hy
    rw [encArrItems_cons_good y t2 hy, he]
    simp only [List.cons_append, List.append_assoc]
    rw [show ('~' :: (e ++ (encArrItems t2 ++ ')' :: r)))
        = encChars y ++ (encArrItems t2 ++ ')' :: r) from by rw [he]; rfl]
    rw [parseArrLoop_enc y t2 (acc.push x) r f1 hy ht2
      (by simp [costA] at hf; omega)]
    rw [JsArr.push_append]
    rw [show encChars y ++ (encArrItems t2 ++ ')' :: r)
        = '~' :: (e ++ (encArrItems t2 ++ ')' :: r)) from by rw [he]; rfl]
    simp
termination_by 1 + sizeOf x + sizeOf t

theorem parseObjLoop_enc (k : String) (v : JsValue) (t : JsObj) (acc : JsObj)
    (r : List Char) (f : Nat)
    (hk : keyOK k = true) (hv : goodV v = true) (ht : goodOTail t = true)
    (hkt : hasKey t k = false) (hd : hasKey acc k = false)
    (hdt : ∀ k', hasKey t k' = true → hasKey acc k' = false)
    (hf : 1 + costV v + costO t ≤ f) :
    parseObjLoop f (encKey k.data ++ (encChars v ++ (objTailChars t ++ ')' :: r))) acc
      = some (.obj (acc.append (.cons k v t)), r) := by
  obtain ⟨f1, rfl⟩ : ∃ f1, f = f1 + 1 := ⟨f - 1, by omega⟩
  conv_lhs => rw [parseObjLoop.eq_def]
  simp only []
  rw [parseKey_enc k.data (encChars v ++ (objTailChars t ++ ')' :: r)) (keyOK_parts k hk).2
    (by obtain ⟨e, he⟩ := encChars_head v hv; rw [he]; exact headKeyStop_tilde e _)]
  rw [parseVal_enc v (objTailChars t ++ ')' :: r) f1 hv (by omega)
    (fun _ => headStop_objRest t r)]
  simp only []
  rw [show (⟨k.data⟩ : String) = k from rfl]
  rw [setField_append acc k v hd]
  cases t with
  | nil =>
    simp [objTailChars, skipSep]
  | cons k2 v2 t2 =>
    obtain ⟨hk2, hks2, hkt2, hv2, ht2⟩ := goodOTail_parts k2 v2 t2 ht
    obtain ⟨c2, cs2, hek2, hc2p, hc2t, hc2b⟩ := encKeyHead k2 hk2
    rw [show objTailChars (.cons k2 v2 t2)
        = '~' :: ((encKey k2.data ++ encChars v2) ++ objTailChars t2) from rfl]
    rw [hek2]
    simp only [List.cons_append, List.append_assoc]
    rw [show skipSep ('~' :: (c2 :: (cs2 ++ (encChars v2 ++ (objTailChars t2 ++ ')' :: r)))))
        = c2 :: (cs2 ++ (encChars v2 ++ (objTailChars t2 ++ ')' :: r))) from by
      simp [skipSep, hc2b hks2]]
    have hne2 : (k2 == k) = false := by
      unfold hasKey at hkt
      simp only [Bool.or_eq_false_iff] at hkt
      exact hkt.1
    have hd2 : hasKey (acc.append (.cons k v .nil)) k2 = false := by
      rw [hasKey_append]
      have h1 : hasKey acc k2 = false := hdt k2 (by unfold hasKey; simp)
      have h2 : (k == k2) = false := by
        simp only [beq_eq_false_iff_ne] at hne2 ⊢
        exact fun h => hne2 h.symm
      simp [hasKey, h1, h2]
    have hdt2 : ∀ k', hasKey t2 k' = true → hasKey (acc.append (.cons k v .nil)) k' = false := by
      intro k' hk'
      rw [hasKey_append]
      have h1 : hasKey acc k' = false := hdt k' (by unfold hasKey; rw [hk']; simp)
      have h2 : (k == k') = false := by
        unfold hasKey at hkt
        simp only [Bool.or_eq_false_iff] at hkt
        simp only [beq_eq_false_iff_ne]
        intro heq
        subst heq
        rw [hkt.2] at hk'
        exact Bool.false_ne_true hk'
      simp [hasKey, h1, h2]
    rw [show c2 :: (cs2 ++ (encChars v2 ++ (objTailChars t2 ++ ')' :: r)))
        = encKey k2.data ++ (encChars v2 ++ (objTailChars t2 ++ ')' :: r)) from by
      rw [hek2]; rfl]
    rw [parseObjLoop_enc k2 v2 t2 (acc.append (.cons k v .nil)) r f1 hk2 hv2 ht2 hkt2 hd2 hdt2
      (by simp [costO] at hf; omega)]
    rw [JsObj.append_assoc]
    rw [show encKey k2.data ++ (encChars v2 ++ (objTailChars t2 ++ ')' :: r))
        = c2 :: (cs2 ++ (encChars v2 ++ (objTailChars t2 ++ ')' :: r))) from by rw [hek2]; rfl]
    simp only [show (JsObj.cons k v JsObj.nil).append (JsObj.cons k2 v2 t2)
        = JsObj.cons k v (JsObj.cons k2 v2 t2) from rfl]
    simp [hc2p]
termination_by 1 + sizeOf v + sizeOf t

end

/-! ### The default fuel of `jsurlParse` covers every good value -/

mutual

theorem costV_le (v : JsValue) (h : goodV v = true) :
    costV v + 2 ≤ 2 * (encChars v).length := by
  cases v with
  | undef => simp [goodV] at h
  | nan => simp [goodV] at h
  | null => simp [costV, encChars]
  | bool b => cases b <;> simp [costV, encChars]
  | num n =>
    obtain ⟨c, rest, hic, _⟩ := intToChars_head n
    have : 1 ≤ (intToChars n).length := by rw [hic]; simp
    simp only [costV, encChars, List.length_cons]
    omega
  | str s => simp [costV, encChars]; omega
  | arr a =>
    have := costA_le a (by simpa [goodV] using h)
    simp only [costV, encChars, List.length_cons, List.length_append, List.length_singleton]
    omega
  | obj o =>
    cases o with
    | nil => simp [goodV] at h
    | cons k v t =>
      obtain ⟨hk, hkt, hv, ht⟩ := goodObj_parts k v t h
      have h1 := costV_le v hv
      have h2 := costO_le t ht
      have hjl : (joinTilde (encObjPairs (.cons k v t))).length
          = (encKey k.data).length + (encChars v).length + (objTailChars t).length := by
        rw [joinTilde_pairs k v t hv ht]
        simp [List.length_append]
        omega
      simp only [costV, costO, encChars, List.length_cons, List.length_append,
        List.length_singleton, hjl]
      omega

theorem costA_le (a : JsArr) (h : goodA a = true) :
    costA a ≤ 2 * (encArrItems a).length := by
  cases a with
  | nil => simp [costA, encArrItems]
  | cons x t =>
    obtain ⟨hx, ht⟩ := goodA_parts x t h
    have h1 := costV_le x hx
    have h2 := costA_le t ht
    rw [encArrItems_cons_good x t hx]
    simp only [costA, List.length_append]
    omega

theorem costO_le (t : JsObj) (h : goodOTail t = true) :
    costO t ≤ 2 * (objTailChars t).length := by
  cases t with
  | nil => simp [costO, objTailChars]
  | cons k2 v2 t2 =>
    obtain ⟨_, _, _, hv2, ht2⟩ := goodOTail_parts k2 v2 t2 h
    have h1 := costV_le v2 hv2
    have h2 := costO_le t2 ht2
    simp only [costO, objTailChars, List.length_cons, List.length_append]
    omega

end

/-- On the round-tripping fragment, `JSURL.parse` inverts `JSURL.stringify`
(shared lemma). -/
theorem jsurlParse_stringify_good (v : JsValue) (h : goodV v = true) :
    jsurlParse (jsurlStringify v) = some v := by
  have hne : encChars v ≠ [] := encChars_ne_nil v h
  have hcost := costV_le v h
  unfold jsurlParse jsurlParseF jsurlStringify
  rw [if_neg (by simpa [String.ext_iff] using hne)]
  have hmain := parseVal_enc v [] (2 * (encChars v).length + 2) h (by omega) (fun _ => rfl)
  rw [List.append_nil] at hmain
  rw [show (⟨encChars v⟩ : String).length = (encChars v).length from rfl]
  rw [show (⟨encChars v⟩ : String).data = encChars v from rfl]
  rw [hmain]
  rfl

/-! ### Concatenation lemmas for the encoder -/

theorem encArrItems_append : ∀ (a b : JsArr),
    encArrItems (a.append b) = encArrItems a ++ encArrItems b
  | .nil, b => by simp [JsArr.append, encArrItems]
  | .cons x t, b => by
    show encArrItems (.cons x (t.append b)) = _
    simp only [encArrItems]
    rw [encArrItems_append t b, List.append_assoc]

theorem encObjPairs_append : ∀ (a b : JsObj),
    encObjPairs (a.append b) = encObjPairs a ++ encObjPairs b
  | .nil, b => by simp [JsObj.append, encObjPairs]
  | .cons k v t, b => by
    show encObjPairs (.cons k v (t.append b)) = _
    by_cases h : (encChars v).isEmpty
    · simp only [encObjPairs, h, if_true]
      exact encObjPairs_append t b
    · simp only [encObjPairs, h, if_false]
      rw [encObjPairs_append t b]
      rfl

/-! ## Claim theorems -/

/-- C1 (corrected), counterexample: the Value `"!"` (a string the claim
explicitly covers) does not round-trip -- `_encodeMap` escapes `!` as `'`,
which the parser decodes as a literal `'`. -/
theorem C1_counterexample :
    jsurlStringify (.str "!") = "~''" ∧
    jsurlParse (jsurlStringify (.str "!")) = some (.str "'") ∧
    JsValue.str "'" ≠ JsValue.str "!" :=
  ⟨by decide, by decide, by decide⟩

/-- C1 (corrected, amended): `JSURL.parse (JSURL.stringify v) = v` for every
Value of the restricted grammar `goodV`: strings without `!`, `~`, `)`;
maps non-empty, with distinct non-empty keys avoiding `!`, `~`, `)`, `(`,
whose non-first keys do not start with `n`, `t`, `f`, `-` or a digit; numbers
double-exact integers; no `undefined`.  Each exclusion is forced by the
code: see the counterexample for `!`, and the development's `goodV` comment
for the others. -/
theorem C1_roundtrip_on_good_values (v : JsValue) (h : goodV v = true) :
    jsurlParse (jsurlStringify v) = some v :=
  jsurlParse_stringify_good v h

/-- C1 witness: the round-trip theorem applied to a concrete nested Value
(negative number, null, boolean, escaped string and keys, nested array and
map, zero). -/
theorem C1_roundtrip_on_good_values_witness :
    goodV c1WitnessValue = true ∧
      jsurlParse (jsurlStringify c1WitnessValue) = some c1WitnessValue :=
  ⟨by decide, C1_roundtrip_on_good_values c1WitnessValue (by decide)⟩

/-- C5 (corrected), counterexample: the body escaping maps `!` to `'` (not
`!!`), and passes non-ASCII characters through unescaped (no `**HHHH`). -/
theorem C5_counterexample :
    encBody ['!'] = ['\''] ∧ ['\''] ≠ ['!', '!'] ∧
    encBody ['é'] = ['é'] ∧ ['é'] ≠ ['*', '*', 'E', '9'] ∧
    ['é'] ≠ ['*', '*', '0', '0', 'E', '9'] :=
  ⟨by decide, by decide, by decide, by decide, by decide⟩

/-- C5 (corrected, amended): the body escaping of strings (and the key
escaping, which coincides) is exactly the per-character table `bodyCh`:
`'` → `!`, `!` → `'` (a swap), `*` → `*2A`, `%` → `*25`, and every other
character -- including every non-ASCII character -- is passed through
unchanged. -/
theorem C5_escape_table (s : List Char) :
    encBody s = s.flatMap bodyCh ∧ encKey s = s.flatMap bodyCh := by
  induction s with
  | nil => exact ⟨rfl, rfl⟩
  | cons c t ih =>
    rw [encBody_cons, encKey_cons, List.flatMap_cons, ih.1, ih.2]
    exact ⟨rfl, rfl⟩

/-- C10 (confirmed): in an array, an `undefined` element is emitted as
`~null` (the encoding is the same as for a `null` element, so length is
preserved); in a map, an entry whose value stringifies to empty text
(`undefined`) is omitted entirely. -/
theorem C10_undefined_in_containers :
    (∀ (xs ys : JsArr),
      jsurlStringify (.arr (xs.append (.cons .undef ys)))
        = jsurlStringify (.arr (xs.append (.cons .null ys)))) ∧
    (∀ (kvs ys : JsObj) (k : String),
      jsurlStringify (.obj (kvs.append (.cons k .undef ys)))
        = jsurlStringify (.obj (kvs.append ys))) := by
  constructor
  · intro xs ys
    unfold jsurlStringify
    congr 1
    simp only [encChars, encArrItems_append]
    simp [encArrItems, encChars]
  · intro kvs ys k
    unfold jsurlStringify
    congr 1
    simp only [encChars, encObjPairs_append]
    simp [encObjPairs, encChars]

/-- On remaining text `n` (a lone character that cannot start a value), the
array element loop never terminates: `_parse` consumes nothing and the loop
repeats its state.  `none` at every fuel is the model of the infinite loop. -/
theorem arrLoopHangN : ∀ (f : Nat) (acc : JsArr), parseArrLoop f ['n'] acc = none
  | 0, _ => rfl
  | f + 1, acc => by
    conv_lhs => rw [parseArrLoop.eq_def]
    simp only []
    cases f with
    | zero => rfl
    | succ g =>
      rw [show parseVal (g + 1) ['n'] = some (.undef, ['n']) from by
        conv_lhs => rw [parseVal.eq_def]
        simp]
      simp only []
      exact arrLoopHangN (g + 1) _

theorem arrLoopHangTN : ∀ (f : Nat) (acc : JsArr), parseArrLoop f ['~', 'n'] acc = none
  | 0, _ => rfl
  | f + 1, acc => by
    conv_lhs => rw [parseArrLoop.eq_def]
    simp only []
    cases f with
    | zero => rfl
    | succ g =>
      cases g with
      | zero =>
        rw [show parseVal 1 ['~', 'n'] = parseTilde 0 ['n'] from by
          conv_lhs => rw [parseVal.eq_def]
          simp]
        rfl
      | succ g2 =>
        rw [show parseVal (g2 + 1 + 1) ['~', 'n'] = parseTilde (g2 + 1) ['n'] from
          parseVal_succ_tilde (g2 + 1) ['n']]
        rw [show parseTilde (g2 + 1) ['n'] = some (.undef, ['n']) from by
          conv_lhs => rw [parseTilde.eq_def]
          simp]
        simp only []
        exact arrLoopHangN (g2 + 1 + 1) _

/-- C3 (code_bug): `"~(~n"` is a proper prefix of `"~(~null)"` -- the valid
encoding of the array `[null]` -- cut before its closing `)`.  On it,
`JSURL.parse` does not return the partially built array: the element loop
repeats forever without consuming input (`none` at every fuel).  The third
conjunct shows the behaviour the claim (and the repository's own notes)
describe does hold at a prefix that is merely missing the closing `)`. -/
theorem C3_truncation_nontermination :
    jsurlStringify (.arr (.cons .null .nil)) = "~(~null)" ∧
    (∀ fuel, jsurlParseF fuel "~(~n" = none) ∧
    jsurlParse "~(timeRange~181440000"
      = some (.obj (.cons "timeRange" (.num 181440000) .nil)) := by
  refine ⟨by decide, ?_, by decide⟩
  intro fuel
  unfold jsurlParseF
  rw [if_neg (by decide)]
  rw [show ("~(~n" : String).data = ['~', '(', '~', 'n'] from rfl]
  cases fuel with
  | zero => rfl
  | succ f =>
    cases f with
    | zero =>
      rw [show parseVal 1 ['~', '(', '~', 'n'] = parseTilde 0 ['(', '~', 'n'] from by
        conv_lhs => rw [parseVal.eq_def]
        simp]
      rfl
    | succ g =>
      rw [parseVal_succ_tilde (g + 1) ['(', '~', 'n'], parseTilde_arrGo g ['n']]
      rw [arrLoopHangTN g .nil]
      rfl

/-- C4 (corrected), counterexample: `"~false"` is the exact encoding of the
Value `false` -- neither malformed nor empty, and parsing it does not raise
-- yet `tryParse("~false", 42)` returns the default `42`, because the
implementation is `JSURL.parse(str) || defaultValue` and `false` is falsy. -/
theorem C4_counterexample :
    jsurlStringify (.bool false) = "~false" ∧
    jsurlParse "~false" = some (.bool false) ∧
    jsurlTryParse "~false" (.num 42) = some (.num 42) ∧
    JsValue.bool false ≠ JsValue.num 42 :=
  ⟨by decide, by decide, by decide, by decide⟩

/-- C4 (corrected, amended): whenever `JSURL.parse` terminates, `tryParse`
never raises and returns the default exactly when the parsed value is falsy
(`undefined`, `null`, `false`, `0`, `NaN`, or the empty string) -- which
includes valid non-empty encodings -- and the parsed value otherwise. -/
theorem C4_tryParse_falsy_default (s : String) (d v : JsValue)
    (h : jsurlParse s = some v) :
    jsurlTryParse s d = some (if jsFalsy v then d else v) := by
  unfold jsurlTryParse
  rw [h]

/-- C4 witness: the amended theorem applied at the truthy encoding `"~42"`
and the falsy encoding `"~0"`. -/
theorem C4_tryParse_falsy_default_witness :
    jsurlTryParse "~42" .null = some (.num 42) ∧
    jsurlTryParse "~0" (.str "dflt") = some (.str "dflt") := by
  constructor
  · rw [C4_tryParse_falsy_default "~42" .null (.num 42) (by decide)]
    decide
  · rw [C4_tryParse_falsy_default "~0" (.str "dflt") (.num 0) (by decide)]
    decide

/-- C2 (confirmed): any Logs Insights queryDetail value (Format A or B) that
decodes to an object in Relative mode -- explicit `timeType = "RELATIVE"` or
a negative numeric `start` -- with the field `end = 0` present yields a time
range whose end is `now` at the call; the `!= null` presence check accepts
the numeric value `0`. -/
theorem C2_relative_end_zero (hash : String) (now : Int) (o : JsValue)
    (hobj : extractInsightsObj hash = some o)
    (hstU : getField o "start" ≠ .undef) (hstN : getField o "start" ≠ .null)
    (hend : getField o "end" = .num 0)
    (hrel : getField o "timeType" = .str "RELATIVE" ∨
      ∃ n, getField o "start" = .num n ∧ n < 0) :
    parseCloudWatchLogsInsights hash now
      = some { startMs := (jsToIntP (getField o "start")).map (fun s => now + s * 1000),
               stopMs := some now } := by
  unfold parseCloudWatchLogsInsights
  rw [hobj]
  simp only []
  rw [if_pos ⟨hstU, hstN, by rw [hend]; decide, by rw [hend]; decide⟩]
  rw [if_pos ?hc]
  case hc =>
    rcases hrel with h | ⟨n, heq, hn⟩
    · exact Or.inl h
    · right
      rw [heq]
      simpa using hn

/-- C2 witness: the theorem applied to a concrete Format B address with
`end~0`, `start~-3600`, `timeType~'RELATIVE` (the decoded object also
carries the spurious empty key the object loop produces before a key
starting with `t`). -/
theorem C2_relative_end_zero_witness :
    parseCloudWatchLogsInsights
        "#logsV2:log-groups/logs-insights$3FqueryDetail$3D~(end~0~start~-3600~timeType~'RELATIVE)"
        1700000000000
      = some { startMs := some 1699996400000, stopMs := some 1700000000000 } := by
  rw [C2_relative_end_zero _ 1700000000000
    (.obj (.cons "end" (.num 0) (.cons "start" (.num (-3600))
      (.cons "" .undef (.cons "timeType" (.str "RELATIVE") .nil)))))
    (by decide) (by decide) (by decide) (by decide)
    (Or.inr ⟨-3600, by decide, by decide⟩)]
  decide

/-- C8 (corrected), counterexample: an address carrying a relative (negative)
`start` together with an absolute epoch-millisecond `end` -- the parser
returns `end = now` and discards the absolute `end` present in the address,
although the claim requires a non-negative present `end` to be used as an
absolute value. -/
theorem C8_counterexample :
    findParamInt "end=".data (normalizeLogsHash
        ("#logsV2:log-groups/log-group/G/log-events/S$3Fstart$3D-1800000$26end$3D1700003600000" : String).data)
      = some 1700003600000 ∧
    parseCloudWatchLogs
        "#logsV2:log-groups/log-group/G/log-events/S$3Fstart$3D-1800000$26end$3D1700003600000"
        1800000000000
      = some { startMs := some 1799998200000, stopMs := some 1800000000000 } ∧
    (1800000000000 : Int) ≠ 1700003600000 :=
  ⟨by decide, by decide, by decide⟩

/-- C8 (corrected, amended): the Log Events parser's actual semantics.  A
negative `start` is `now + start` and a non-negative `start` is absolute, as
claimed; but `end` does not follow its own sign convention: when `start` is
negative, a present non-negative `end` is ignored in favour of `now`, and
when `start` is non-negative a present `end` is used as-is (even if
negative).  `end` defaults to `now` when absent. -/
theorem C8_logEvents_end_semantics (hash : String) (now : Int) (s : Int)
    (hs : findParamInt "start=".data (normalizeLogsHash hash.data) = some s) :
    (findParamInt "end=".data (normalizeLogsHash hash.data) = none →
      parseCloudWatchLogs hash now
        = some { startMs := some (if s < 0 then now + s else s), stopMs := some now }) ∧
    (∀ e, findParamInt "end=".data (normalizeLogsHash hash.data) = some e →
      (s < 0 → e < 0 →
        parseCloudWatchLogs hash now
          = some { startMs := some (now + s), stopMs := some (now + e) }) ∧
      (s < 0 → 0 ≤ e →
        parseCloudWatchLogs hash now
          = some { startMs := some (now + s), stopMs := some now }) ∧
      (0 ≤ s →
        parseCloudWatchLogs hash now
          = some { startMs := some s, stopMs := some e })) := by
  constructor
  · intro he
    simp only [parseCloudWatchLogs, hs, he]
    by_cases hneg : s < 0
    · rw [if_pos hneg, if_pos hneg]
    · rw [if_neg hneg, if_neg hneg]
  · intro e he
    refine ⟨?_, ?_, ?_⟩
    · intro h1 h2
      simp only [parseCloudWatchLogs, hs, he]
      rw [if_pos h1, if_pos h2]
    · intro h1 h2
      simp only [parseCloudWatchLogs, hs, he]
      rw [if_pos h1, if_neg (by omega)]
    · intro h1
      simp only [parseCloudWatchLogs, hs, he]
      rw [if_neg (by omega)]

/-- C8 witness: the amended theorem applied at a concrete address with
relative `start` and absolute `end` (the ignored-`end` case). -/
theorem C8_logEvents_end_semantics_witness :
    parseCloudWatchLogs
        "#logsV2:log-groups/log-group/G/log-events/S$3Fstart$3D-1800000$26end$3D1700003600000"
        1900000000000
      = some { startMs := some (1900000000000 - 1800000), stopMs := some 1900000000000 } := by
  have h := (C8_logEvents_end_semantics
    "#logsV2:log-groups/log-group/G/log-events/S$3Fstart$3D-1800000$26end$3D1700003600000"
    1900000000000 (-1800000) (by decide)).2 1700003600000 (by decide)
  have h2 := h.2.1 (by decide) (by decide)
  rw [h2]
  norm_num

/-- C9 (confirmed): a CloudWatch address whose fragment contains `?~(`
anywhere (a path segment may intervene between the `:` separator and the
`?`) and matches no more specific marker classifies as the generic
hash-state scheme; and an address already claimed by an earlier, more
specific rule never classifies as generic. -/
theorem C9_generic_hash_state_classifier :
    (∀ url pathname hash : String,
      containsSub pathname "/cloudwatch" = true →
      containsSub hash "?~(" = true →
      containsSub hash "metricsV2" = false →
      containsSub hash "logs-insights" = false →
      (containsSub hash "logsV2" &&
        (containsSub hash "queryDetail" || containsSub hash "queryDetail$3D")) = false →
      (containsSub hash "logsV2:log-groups" = false ∨
        (containsSub hash "$3Fstart$3D" || containsSub hash "?start=") = false) →
      containsSub pathname "/xray" = false →
      containsSub pathname "/x-ray" = false →
      detectService url pathname hash = "cloudwatch-generic") ∧
    (∀ url pathname hash : String,
      containsSub pathname "/cloudwatch" = true →
      containsSub hash "metricsV2" = true →
      detectService url pathname hash = "cloudwatch-metrics") ∧
    (∀ url pathname hash : String,
      containsSub pathname "/cloudwatch" = true →
      containsSub hash "metricsV2" = false →
      containsSub hash "logsV2:log-groups" = true →
      containsSub hash "logs-insights" = true →
      detectService url pathname hash = "cloudwatch-logs-insights") := by
  refine ⟨?_, ?_, ?_⟩
  · intro url pathname hash h1 h2 h3 h4 h5 h6 h7 h8
    unfold detectService
    rcases h6 with h6 | h6 <;> simp [h1, h2, h3, h4, h5, h6, h7, h8]
  · intro url pathname hash h1 h2
    unfold detectService
    simp [h1, h2]
  · intro url pathname hash h1 h2 h3 h4
    unfold detectService
    simp [h1, h2, h3, h4]

/-- C9 witness: the classifier applied to the repository's dashboards
example, where the path segment `dashboards/ApplicationELB` intervenes
between `:` and `?`. -/
theorem C9_generic_hash_state_classifier_witness :
    detectService "https://x.console.aws.amazon.com/cloudwatch/home?region=ap-northeast-1"
      "/cloudwatch/home" "#home:dashboards/ApplicationELB?~(timeRange~43200000)"
      = "cloudwatch-generic" :=
  C9_generic_hash_state_classifier.1 _ _ _ (by decide) (by decide) (by decide) (by decide)
    (by decide) (Or.inl (by decide)) (by decide) (by decide)

/-! ### Splice decomposition lemmas -/

theorem breakOnSub_decomp : ∀ (pat s pre post : List Char),
    breakOnSub pat s = some (pre, post) → s = pre ++ pat ++ post
  | pat, [], pre, post, h => by
    unfold breakOnSub at h
    by_cases hp : pat.isEmpty
    · rw [if_pos hp] at h
      injection h with h'
      injection h' with h1 h2
      subst h1
      subst h2
      simp [List.isEmpty_iff.mp hp]
    · rw [if_neg hp] at h
      cases h
  | pat, c :: t, pre, post, h => by
    unfold breakOnSub at h
    by_cases hp : pat.isPrefixOf (c :: t)
    · rw [if_pos hp] at h
      injection h with h'
      injection h' with h1 h2
      subst h1
      subst h2
      have hpre : pat <+: c :: t := List.isPrefixOf_iff_prefix.mp hp
      obtain ⟨r, hr⟩ := hpre
      rw [← hr]
      simp
    · rw [if_neg hp] at h
      cases hm : breakOnSub pat t with
      | none => rw [hm] at h; cases h
      | some q =>
        rw [hm] at h
        obtain ⟨a, b⟩ := q
        injection h with h'
        injection h' with h1 h2
        subst h1
        subst h2
        have := breakOnSub_decomp pat t a b hm
        rw [show c :: t = c :: (a ++ pat ++ b) from by rw [← this]]
        simp

theorem takeWhile_drop_decomp (p : Char → Bool) (l : List Char) :
    l = l.takeWhile p ++ l.drop (l.takeWhile p).length := by
  have h1 : l.takeWhile p = l.take (l.takeWhile p).length := by
    have := List.takeWhile_prefix (l := l) (p := p)
    exact List.prefix_iff_eq_take.mp this
  conv_lhs => rw [← List.take_append_drop (l.takeWhile p).length l]
  rw [← h1]

theorem matchParam_decomp (hash nm pre v post : String)
    (h : matchParam hash nm = some (pre, v, post)) :
    hash = pre ++ nm ++ v ++ post := by
  unfold matchParam at h
  cases hb : breakOnSub nm.data hash.data with
  | none => rw [hb] at h; cases h
  | some q =>
    rw [hb] at h
    obtain ⟨a, rest⟩ := q
    simp only [Option.some.injEq, Prod.mk.injEq] at h
    obtain ⟨h1, h2, h3⟩ := h
    have hd := breakOnSub_decomp nm.data hash.data a rest hb
    have hr := takeWhile_drop_decomp (fun c => !(c == '&' || c == ';')) rest
    apply String.ext
    show hash.data = ((pre ++ nm ++ v) ++ post).data
    rw [show ((pre ++ nm ++ v) ++ post).data = pre.data ++ nm.data ++ v.data ++ post.data from
      rfl]
    rw [← h1, ← h2, ← h3]
    simp only []
    rw [hd]
    conv_lhs => rw [hr]
    simp

/-- C6 (corrected), counterexample: on an X-Ray address with no `timeRange`
anywhere, the injector does not fail -- it appends a fresh `timeRange`
parameter to the fragment and reports success. -/
theorem C6_counterexample :
    containsSub "https://x.console.aws.amazon.com/xray/home#traces" "timeRange=" = false ∧
    injectXRay "https://x.console.aws.amazon.com/xray/home#traces" 1700000000000 1700003600000
      = some "https://x.console.aws.amazon.com/xray/home#traces&timeRange=2023-11-15T07:13:20.000~2023-11-15T08:13:20.000" := by
  constructor
  · decide
  · decide

/-- C6 (corrected, amended): the Metrics, Logs Insights and generic
hash-state injectors do fail (`false`, address untouched) when their
time-bearing substring is absent; but the X-Ray injector appends a fresh
`timeRange` parameter (see the counterexample), and the Log Events injector
reports success with the address unchanged instead of failing. -/
theorem C6_injectors_on_no_match :
    (∀ (hash : String) (t1 t2 : Int), matchParam hash "graph=" = none →
      injectCloudWatchMetrics hash t1 t2 = none) ∧
    (∀ (hash : String) (t1 t2 : Int), matchParam hash "queryDetail=" = none →
      matchParamCI hash "queryDetail$3D" = none →
      injectCloudWatchLogsInsights hash t1 t2 = none) ∧
    (∀ (hash : String) (t1 t2 : Int), breakOnSub "?~(".data hash.data = none →
      injectCloudWatchGeneric hash t1 t2 = none) ∧
    (∀ (hash : String) (t1 t2 : Int),
      containsSub hash "$3F" = false → containsSub hash "$3D" = false →
      findDelimNumSpan "start=".data hash.data = none →
      findDelimNumSpan "end=".data hash.data = none →
      injectCloudWatchLogs.findQStartSpan hash.data = none →
      injectCloudWatchLogs hash t1 t2 = some ⟨stripHashMark hash.data⟩) := by
  refine ⟨?_, ?_, ?_, ?_⟩
  · intro hash t1 t2 h
    unfold injectCloudWatchMetrics
    rw [h]
  · intro hash t1 t2 h1 h2
    simp only [injectCloudWatchLogsInsights, h1, h2]
  · intro hash t1 t2 h
    unfold injectCloudWatchGeneric
    rw [h]
  · intro hash t1 t2 h1 h2 h3 h4 h5
    simp only [injectCloudWatchLogs, h1, h2, h3, h4, h5]
    rfl

/-- C6 witness: the amended theorem applied to an address with none of the
markers. -/
theorem C6_injectors_on_no_match_witness :
    injectCloudWatchMetrics "#nothing" 0 0 = none ∧
    injectCloudWatchLogsInsights "#nothing" 0 0 = none ∧
    injectCloudWatchGeneric "#nothing" 0 0 = none ∧
    injectCloudWatchLogs "#nothing" 0 0 = some "nothing" := by
  refine ⟨C6_injectors_on_no_match.1 "#nothing" 0 0 (by decide),
    C6_injectors_on_no_match.2.1 "#nothing" 0 0 (by decide) (by decide),
    C6_injectors_on_no_match.2.2.1 "#nothing" 0 0 (by decide), ?_⟩
  rw [C6_injectors_on_no_match.2.2.2 "#nothing" 0 0 (by decide) (by decide) (by decide)
    (by decide) (by decide)]
  decide

theorem breakOnSubCI_decomp : ∀ (pat s pre post : List Char),
    breakOnSubCI pat s = some (pre, post) →
    ∃ m, s = pre ++ m ++ post ∧ m.length = pat.length ∧ m.map toLowerA = pat.map toLowerA
  | pat, [], pre, post, h => by
    unfold breakOnSubCI at h
    by_cases hp : pat.isEmpty
    · rw [if_pos hp] at h
      injection h with h'
      injection h' with h1 h2
      subst h1
      subst h2
      exact ⟨[], by simp, by simp [List.isEmpty_iff.mp hp]⟩
    · rw [if_neg hp] at h
      cases h
  | pat, c :: t, pre, post, h => by
    unfold breakOnSubCI at h
    by_cases hp : (pat.map toLowerA).isPrefixOf ((c :: t).map toLowerA)
    · rw [if_pos hp] at h
      injection h with h'
      injection h' with h1 h2
      subst h1
      subst h2
      have hpre : pat.map toLowerA <+: (c :: t).map toLowerA := List.isPrefixOf_iff_prefix.mp hp
      have hlen : pat.length ≤ (c :: t).length := by
        have := hpre.length_le
        simpa using this
      refine ⟨(c :: t).take pat.length, ?_, ?_, ?_⟩
      · simp [List.take_append_drop]
      · rw [List.length_take]
        exact Nat.min_eq_left hlen
      · have hq := List.prefix_iff_eq_take.mp hpre
        conv_rhs => rw [hq]
        rw [List.length_map, ← List.map_take]
    · rw [if_neg hp] at h
      cases hm : breakOnSubCI pat t with
      | none => rw [hm] at h; cases h
      | some q =>
        rw [hm] at h
        obtain ⟨a, b⟩ := q
        injection h with h'
        injection h' with h1 h2
        subst h1
        subst h2
        obtain ⟨m, hm1, hm2, hm3⟩ := breakOnSubCI_decomp pat t a b hm
        exact ⟨m, by rw [show c :: t = c :: (a ++ m ++ b) from by rw [← hm1]]; simp, hm2, hm3⟩

theorem matchParamCI_decomp (hash nm pre v post : String)
    (h : matchParamCI hash nm = some (pre, v, post)) :
    ∃ m, hash.data = pre.data ++ m ++ v.data ++ post.data ∧
      m.map toLowerA = nm.data.map toLowerA := by
  unfold matchParamCI at h
  cases hb : breakOnSubCI nm.data hash.data with
  | none => rw [hb] at h; cases h
  | some q =>
    rw [hb] at h
    obtain ⟨a, rest⟩ := q
    simp only [Option.some.injEq, Prod.mk.injEq] at h
    obtain ⟨h1, h2, h3⟩ := h
    obtain ⟨m, hm1, _, hm3⟩ := breakOnSubCI_decomp nm.data hash.data a rest hb
    have hr := takeWhile_drop_decomp (fun c => !(c == '&' || c == ';')) rest
    refine ⟨m, ?_, hm3⟩
    rw [← h1, ← h2, ← h3]
    simp only []
    rw [hm1]
    conv_lhs => rw [hr]
    simp

/-- C7 (corrected), counterexample: the X-Ray injector on an address whose
query holds the unrelated parameter `other=a~b` alongside `timeRange`:
`URLSearchParams.set` re-serialises the whole query, so the unrelated
parameter comes out as `other=a%7Eb` -- its characters are not preserved. -/
theorem C7_counterexample :
    containsSub "https://x.console.aws.amazon.com/xray/home?other=a~b&timeRange=PT1H"
      "other=a~b" = true ∧
    injectXRay "https://x.console.aws.amazon.com/xray/home?other=a~b&timeRange=PT1H"
        1700000000000 1700003600000
      = some "https://x.console.aws.amazon.com/xray/home?other=a%7Eb&timeRange=2023-11-15T07%3A13%3A20.000%7E2023-11-15T08%3A13%3A20.000" ∧
    containsSub "https://x.console.aws.amazon.com/xray/home?other=a%7Eb&timeRange=2023-11-15T07%3A13%3A20.000%7E2023-11-15T08%3A13%3A20.000"
      "other=a~b" = false := by
  refine ⟨by decide, ?_, by decide⟩
  decide

/-- C7 (corrected, amended): the regex-splice injectors -- Metrics, Logs
Insights Format A and B, and the generic hash-state injector -- rewrite only
the matched time-bearing substring at its original position (the matched
parameter decomposes the address as prefix ++ marker ++ value ++ suffix, and
the result is prefix ++ marker ++ new value ++ suffix, the generic injector
replacing everything after its `?` marker and stripping a leading `#` as the
source does).  The X-Ray injector's query path, however, re-serialises the
entire query string (see the counterexample). -/
theorem C7_splice_preserves_surroundings :
    (∀ (hash nm pre v post : String), matchParam hash nm = some (pre, v, post) →
      hash = pre ++ nm ++ v ++ post) ∧
    (∀ (hash nm pre v post : String), matchParamCI hash nm = some (pre, v, post) →
      ∃ m, hash.data = pre.data ++ m ++ v.data ++ post.data ∧
        m.map toLowerA = nm.data.map toLowerA) ∧
    (∀ (hash pre val post : String) (t1 t2 : Int) (o : JsObj),
      matchParam hash "graph=" = some (pre, val, post) →
      tryParseNull val = some (.obj o) →
      injectCloudWatchMetrics hash t1 t2
        = some (pre ++ "graph=" ++ jsurlStringify (.obj (setField
            (setField o "start" (.str (toJSTString t1))) "end" (.str (toJSTString t2)))) ++ post)) ∧
    (∀ (hash pre val post dec : String) (t1 t2 : Int) (o : JsObj),
      matchParam hash "queryDetail=" = some (pre, val, post) →
      percentDecodeS ⟨dollarToPct val.data⟩ = some dec →
      tryParseNull dec = some (.obj o) →
      injectCloudWatchLogsInsights hash t1 t2
        = some (pre ++ "queryDetail=" ++
            ⟨pctToDollar (encodeURIComponentS (jsurlStringify (.obj (setField (setField
              (setField o "start" (.num (t1.ediv 1000))) "end" (.num (t2.ediv 1000)))
              "timeType" (.str "ABSOLUTE"))))).data⟩ ++ post)) ∧
    (∀ (hash pre val post : String) (t1 t2 : Int) (o : JsObj),
      matchParam hash "queryDetail=" = none →
      matchParamCI hash "queryDetail$3D" = some (pre, val, post) →
      tryParseNull val = some (.obj o) →
      injectCloudWatchLogsInsights hash t1 t2
        = some (pre ++ "queryDetail$3D" ++ jsurlStringify (.obj (setField (setField
            (setField o "start" (.num (t1.ediv 1000))) "end" (.num (t2.ediv 1000)))
            "timeType" (.str "ABSOLUTE"))) ++ post)) ∧
    (∀ (hash : String) (pre rest : List Char) (t1 t2 : Int) (o : JsObj),
      breakOnSub "?~(".data hash.data = some (pre, rest) →
      tryParseNull ⟨'~' :: '(' :: rest⟩ = some (.obj o) →
      injectCloudWatchGeneric hash t1 t2
        = some (⟨stripHashMark (pre ++ ['?'])⟩ ++ jsurlStringify (.obj (setField o "timeRange"
            (.arr (.cons (.num t1) (.cons (.num t2) .nil))))))) := by
  refine ⟨matchParam_decomp, matchParamCI_decomp, ?_, ?_, ?_, ?_⟩
  · intro hash pre val post t1 t2 o h1 h2
    unfold injectCloudWatchMetrics
    rw [h1]
    simp only []
    rw [h2]
  · intro hash pre val post dec t1 t2 o h1 h2 h3
    simp only [injectCloudWatchLogsInsights, h1, h2, h3]
    simp
  · intro hash pre val post t1 t2 o h1 h2 h3
    simp only [injectCloudWatchLogsInsights, h1, h2, h3]
    simp
  · intro hash pre rest t1 t2 o h1 h2
    unfold injectCloudWatchGeneric
    rw [h1]
    simp only []
    rw [h2]

/-- C7 witness: the Metrics conjunct applied to a concrete address holding
both a `graph=` parameter and an unrelated `&other=1` parameter, which is
preserved character for character. -/
theorem C7_splice_preserves_surroundings_witness :
    injectCloudWatchMetrics
        "#metricsV2:graph=~(metrics~(~(~'AWS*2fEC2))~start~'-PT3H~end~'now)&other=1"
        1700000000000 1700003600000
      = some ("#metricsV2:" ++ "graph=" ++ jsurlStringify (.obj (setField
          (setField
            (.cons "metrics" (.arr (.cons (.arr (.cons (.str "AWS/EC2") .nil)) .nil))
              (.cons "start" (.str "-PT3H") (.cons "end" (.str "now") .nil)))
            "start" (.str (toJSTString 1700000000000)))
          "end" (.str (toJSTString 1700003600000)))) ++ "&other=1") :=
  C7_splice_preserves_surroundings.2.2.1
    "#metricsV2:graph=~(metrics~(~(~'AWS*2fEC2))~start~'-PT3H~end~'now)&other=1"
    "#metricsV2:" "~(metrics~(~(~'AWS*2fEC2))~start~'-PT3H~end~'now)" "&other=1"
    1700000000000 1700003600000
    (.cons "metrics" (.arr (.cons (.arr (.cons (.str "AWS/EC2") .nil)) .nil))
      (.cons "start" (.str "-PT3H") (.cons "end" (.str "now") .nil)))
    (by decide) (by decide)

end TimeKeeper
